import Mathlib

/-!
# Verification of the md3view model decoder and animation packer

Shallow embedding of `md3view/src/md3.rs` (MD3 binary decoder and
`MD3Surface::make_animation`) and of the texture-width negotiation loop of
`md3view/src/render.rs` (`Texture::try_from_md3`), with theorems about the
documented behaviour of these components.

Byte streams are modelled as lists of naturals, machine integers as `Nat`/`Int`
with explicit wrapping where the code can overflow, and fallible operations
(I/O errors, panics) through `Except`/`Option`.
-/

namespace MD3View

/-! ## A model of `f32` rounding

`MD3Surface::make_animation` computes
`(vertices as f32 / width as f32).ceil() as usize`.  We model binary32
round-to-nearest-even with 24 significand bits and unbounded exponent range;
every value arising here (counts below `2^64` and their quotients) lies far
inside the normal range of `f32`, where the two semantics agree.
-/

/-- Round a rational to the nearest integer, ties to even. -/
def rne (x : ℚ) : ℤ :=
  if x - ⌊x⌋ < 1/2 then ⌊x⌋
  else if 1/2 < x - ⌊x⌋ then ⌊x⌋ + 1
  else if ⌊x⌋ % 2 = 0 then ⌊x⌋ else ⌊x⌋ + 1

/-- Round a positive rational to 24 significand bits (`f32` precision),
round-to-nearest-even.  Nonpositive inputs map to zero (`0.0` is the only
nonpositive value reaching this model). -/
def r32 (q : ℚ) : ℚ :=
  if q ≤ 0 then 0
  else ((rne (q * 2 ^ ((23 : ℤ) - Int.log 2 q)) : ℤ) : ℚ) * 2 ^ (Int.log 2 q - 23)

/-- The row count `(vertices as f32 / width as f32).ceil() as usize` computed by
`make_animation` (md3.rs line 69).  The `f32` quotient of two `f32`-rounded
operands is the correctly rounded exact quotient. -/
def rows32 (vertices width : ℕ) : ℕ :=
  (⌈r32 (r32 (vertices : ℚ) / r32 (width : ℚ))⌉).toNat

/-! ## Data model (md3.rs lines 13-62, 130-147)

`f32` fields of frames, tags and texture coordinates are kept as their raw
little-endian `u32` bit patterns: they are decoded bijectively from the bytes
and no claim depends on their numeric interpretation.
-/

/-- `MD3Frame` (md3.rs lines 29-36). -/
structure MD3Frame where
  min : List ℕ
  max : List ℕ
  origin : List ℕ
  radius : ℕ
  name : List ℕ
deriving DecidableEq

/-- `MD3FrameTag` (md3.rs lines 38-42). -/
structure MD3FrameTag where
  name : List ℕ
  origin : List ℕ
  axes : List ℕ
deriving DecidableEq

/-- `MD3Shader` (md3.rs lines 130-134). -/
structure MD3Shader where
  name : List ℕ
  index : ℕ
deriving DecidableEq

/-- `MD3Triangle` (md3.rs line 137): three `u32` vertex indices. -/
structure MD3Triangle where
  idx : List ℕ
deriving DecidableEq

/-- `MD3TexCoord` (md3.rs line 139): two `f32` bit patterns. -/
structure MD3TexCoord where
  uv : List ℕ
deriving DecidableEq

/-- `MD3FrameVertex` (md3.rs lines 141-147): three `i16` coordinates and a
`u16` packed normal. -/
structure MD3FrameVertex where
  x : ℤ
  y : ℤ
  z : ℤ
  n : ℕ
deriving DecidableEq

/-- `MD3Surface` (md3.rs lines 45-54). -/
structure MD3Surface where
  name : List ℕ
  num_verts : ℕ
  num_frames : ℕ
  shaders : List MD3Shader
  triangles : List MD3Triangle
  texcoords : List MD3TexCoord
  vertices : List MD3FrameVertex
deriving DecidableEq

/-- `MD3Model` (md3.rs lines 13-21). -/
structure MD3Model where
  version : ℤ
  name : List ℕ
  num_tags : ℕ
  frames : List MD3Frame
  tags : List MD3FrameTag
  surfaces : List MD3Surface
deriving DecidableEq

/-- `Animation` (md3.rs lines 56-62).  The `u32` fields hold the `as u32` casts
of the corresponding `usize` values, hence the `% 2^32`. -/
structure Animation where
  vertices : ℕ
  frames : ℕ
  rows_per_frame : ℕ
  data : List ℕ
deriving DecidableEq

/-! ## The animation packer (`MD3Surface::make_animation`, md3.rs lines 65-127) -/

/-- `MD3FrameVertex::to_pixel` (md3.rs lines 149-153): the 4-channel
sign-extended `i32` pixel `[x, y, z, n]`. -/
def MD3FrameVertex.to_pixel (v : MD3FrameVertex) : List ℤ :=
  [v.x, v.y, v.z, (v.n : ℤ)]

/-- `i32::to_ne_bytes` on the crate's little-endian build targets: the four
bytes of the two's-complement representation, least significant first. -/
def i32ToBytes (x : ℤ) : List ℕ :=
  [(x.emod (2 ^ 32)).toNat % 256, (x.emod (2 ^ 32)).toNat / 256 % 256,
   (x.emod (2 ^ 32)).toNat / 65536 % 256, (x.emod (2 ^ 32)).toNat / 16777216 % 256]

/-- `vert.to_pixel().map(i32::to_ne_bytes)` flattened: the 16 bytes of one
vertex pixel. -/
def pixelBytes (v : MD3FrameVertex) : List ℕ :=
  v.to_pixel.flatMap i32ToBytes

/-- The zero-fill pixel `[[0u8; 4]; 4]` of `make_animation`, flattened. -/
def zeroPixelBytes : List ℕ := (List.replicate 4 (List.replicate 4 (0 : ℕ))).flatten

/-- The `frames > 1` branch body of `make_animation` (md3.rs lines 75-101): for
each frame in ascending order (rayon's ordered collect), the frame's vertex
slice `[f*V, f*V+V)` projected to pixel bytes, extended with zero pixels by
`chain(repeat(...)).take(pixels_per_frame)`, flattened.  `none` models the index
panic of `self.vertices[start..end]` when a slice end exceeds the list length. -/
def generalPack (verts : List MD3FrameVertex) (vertices frames ppf : ℕ) :
    Option (List ℕ) :=
  if frames * vertices ≤ verts.length then
    some ((List.range frames).flatMap (fun f =>
      (((((verts.drop (f * vertices)).take vertices).map pixelBytes)
        ++ List.replicate ppf zeroPixelBytes).take ppf).flatten))
  else none

/-- The `frames <= 1` branch body of `make_animation` (md3.rs lines 102-119):
the whole vertex list followed by `pixels_per_frame - vertices.len()` zero
pixels.  `none` models the panic of the `usize` subtraction `extra_count` when
the vertex list is longer than `pixels_per_frame`. -/
def singlePack (verts : List MD3FrameVertex) (ppf : ℕ) : Option (List ℕ) :=
  if verts.length ≤ ppf then
    some (((verts.map pixelBytes)
      ++ List.replicate (ppf - verts.length) zeroPixelBytes).flatten)
  else none

/-- `MD3Surface::make_animation` (md3.rs lines 65-127).  `none` models a panic
(slice index, `usize` underflow, or the final `assert_eq!` on the buffer
length). -/
def make_animation (s : MD3Surface) (width? : Option ℕ) : Option Animation :=
  let vertices := s.num_verts
  let frames := s.num_frames
  let width := width?.getD vertices
  let rows_per_frame := rows32 vertices width
  let pixels_per_frame := width * rows_per_frame
  let height := frames * rows_per_frame
  let channels := 4 * 4
  let data? := if 1 < frames then
      generalPack s.vertices vertices frames pixels_per_frame
    else
      singlePack s.vertices pixels_per_frame
  data?.bind (fun data =>
    if data.length = width * height * channels then
      some ⟨vertices % 2 ^ 32, frames % 2 ^ 32, rows_per_frame % 2 ^ 32, data⟩
    else none)

/-! ## The binary decoder (`read_md3` and helpers, md3.rs lines 155-420)

The `Read + Seek` byte source is modelled as a list of bytes plus a cursor
position.  `read_exact` fails on a short read and every call site maps the
failure to `EOF` (`.or(Err(EOF))`); seeks always succeed, as for
`std::io::Cursor` with nonnegative targets.
-/

/-- `MD3_ID = *b"IDP3"` (md3.rs line 8). -/
def MD3_ID : List ℕ := [73, 68, 80, 51]

/-- `MD3_VERSION` (md3.rs line 9). -/
def MD3_VERSION : ℤ := 15

/-- `MD3ReadError` (md3.rs lines 155-165). -/
inductive MD3ReadError where
  | WrongId (bytes : List ℕ)
  | UnsupportedVersion (version : ℤ)
  | EOF
  | AfterEnd (pos : ℕ)
deriving DecidableEq

/-- A seekable byte source: the bytes and the cursor position. -/
structure Stream where
  data : List ℕ
  pos : ℕ
deriving DecidableEq

/-- `read_exact` into an `n`-byte buffer. -/
def readBytes (n : ℕ) (st : Stream) : Except MD3ReadError (List ℕ × Stream) :=
  if st.pos + n ≤ st.data.length then
    .ok ((st.data.drop st.pos).take n, ⟨st.data, st.pos + n⟩)
  else .error .EOF

/-- `seek(SeekFrom::Current(n))` for the fixed nonnegative skips of the format. -/
def seekCur (n : ℕ) (st : Stream) : Stream := ⟨st.data, st.pos + n⟩

/-- `seek(SeekFrom::Start(o))`. -/
def seekStart (o : ℕ) (st : Stream) : Stream := ⟨st.data, o⟩

/-- `u32::from_le_bytes`. -/
def leU32 (bs : List ℕ) : ℕ :=
  bs.getD 0 0 + bs.getD 1 0 * 256 + bs.getD 2 0 * 65536 + bs.getD 3 0 * 16777216

/-- `i32::from_le_bytes`. -/
def leI32 (bs : List ℕ) : ℤ :=
  if leU32 bs < 2 ^ 31 then (leU32 bs : ℤ) else (leU32 bs : ℤ) - 2 ^ 32

/-- `i16::from_le_bytes`. -/
def leI16 (bs : List ℕ) : ℤ :=
  if bs.getD 0 0 + bs.getD 1 0 * 256 < 2 ^ 15 then (bs.getD 0 0 + bs.getD 1 0 * 256 : ℤ)
  else (bs.getD 0 0 + bs.getD 1 0 * 256 : ℤ) - 2 ^ 16

/-- The little-endian `u32` stored at byte offset `off` of a byte list. -/
def leU32At (data : List ℕ) (off : ℕ) : ℕ := leU32 ((data.drop off).take 4)

/-- `(0..n).map(|_| f(data)).collect::<Result<Vec<_>>>()`: read `n` records in
order, stopping at the first error. -/
def readN (f : Stream → Except MD3ReadError (α × Stream)) :
    ℕ → Stream → Except MD3ReadError (List α × Stream)
  | 0, st => .ok ([], st)
  | n + 1, st => do
    let (v, st1) ← f st
    let (vs, st2) ← readN f n st1
    .ok (v :: vs, st2)

/-- `read_frame` (md3.rs lines 231-263): ten `f32` fields then a 16-byte name. -/
def read_frame (st : Stream) : Except MD3ReadError (MD3Frame × Stream) := do
  let (minx, st) ← readBytes 4 st
  let (miny, st) ← readBytes 4 st
  let (minz, st) ← readBytes 4 st
  let (maxx, st) ← readBytes 4 st
  let (maxy, st) ← readBytes 4 st
  let (maxz, st) ← readBytes 4 st
  let (ox, st) ← readBytes 4 st
  let (oy, st) ← readBytes 4 st
  let (oz, st) ← readBytes 4 st
  let (rad, st) ← readBytes 4 st
  let (nm, st) ← readBytes 16 st
  .ok (⟨[leU32 minx, leU32 miny, leU32 minz], [leU32 maxx, leU32 maxy, leU32 maxz],
        [leU32 ox, leU32 oy, leU32 oz], leU32 rad, nm⟩, st)

/-- `read_tag` (md3.rs lines 265-299): a 64-byte name, a 3-float origin and a
3x3 axis matrix. -/
def read_tag (st : Stream) : Except MD3ReadError (MD3FrameTag × Stream) := do
  let (nm, st) ← readBytes 64 st
  let (ox, st) ← readBytes 4 st
  let (oy, st) ← readBytes 4 st
  let (oz, st) ← readBytes 4 st
  let (xx, st) ← readBytes 4 st
  let (xy, st) ← readBytes 4 st
  let (xz, st) ← readBytes 4 st
  let (yx, st) ← readBytes 4 st
  let (yy, st) ← readBytes 4 st
  let (yz, st) ← readBytes 4 st
  let (zx, st) ← readBytes 4 st
  let (zy, st) ← readBytes 4 st
  let (zz, st) ← readBytes 4 st
  .ok (⟨nm, [leU32 ox, leU32 oy, leU32 oz],
        [leU32 xx, leU32 xy, leU32 xz, leU32 yx, leU32 yy, leU32 yz,
         leU32 zx, leU32 zy, leU32 zz]⟩, st)

/-- `read_shader` (md3.rs lines 366-377). -/
def read_shader (st : Stream) : Except MD3ReadError (MD3Shader × Stream) := do
  let (nm, st) ← readBytes 64 st
  let (ix, st) ← readBytes 4 st
  .ok (⟨nm, leU32 ix⟩, st)

/-- `read_triangle` (md3.rs lines 379-397): three `u32` indices, the first and
third swapped before storing. -/
def read_triangle (st : Stream) : Except MD3ReadError (MD3Triangle × Stream) := do
  let (a, st) ← readBytes 4 st
  let (b, st) ← readBytes 4 st
  let (c, st) ← readBytes 4 st
  .ok (⟨[leU32 c, leU32 b, leU32 a]⟩, st)

/-- `read_texcoord` (md3.rs lines 399-407). -/
def read_texcoord (st : Stream) : Except MD3ReadError (MD3TexCoord × Stream) := do
  let (u, st) ← readBytes 4 st
  let (v, st) ← readBytes 4 st
  .ok (⟨[leU32 u, leU32 v]⟩, st)

/-- `read_vertex` (md3.rs lines 409-426). -/
def read_vertex (st : Stream) : Except MD3ReadError (MD3FrameVertex × Stream) := do
  let (x, st) ← readBytes 2 st
  let (y, st) ← readBytes 2 st
  let (z, st) ← readBytes 2 st
  let (n, st) ← readBytes 2 st
  .ok (⟨leI16 x, leI16 y, leI16 z, n.getD 0 0 + n.getD 1 0 * 256⟩, st)

/-- `read_surface` (md3.rs lines 301-364) up to, but not including, its final
position check: yields the surface, the final stream, and the surface's
absolute declared end `base + offset_end`. -/
def read_surface_core (st0 : Stream) :
    Except MD3ReadError (MD3Surface × Stream × ℕ) := do
  let base := st0.pos
  let (magic, st) ← readBytes 4 st0
  if magic ≠ MD3_ID then
    .error (.WrongId magic)
  else do
  let (nm, st) ← readBytes 64 st
  let st := seekCur 4 st
  let (nfr, st) ← readBytes 4 st
  let (nsh, st) ← readBytes 4 st
  let (nv, st) ← readBytes 4 st
  let (ntr, st) ← readBytes 4 st
  let (otr, st) ← readBytes 4 st
  let (osh, st) ← readBytes 4 st
  let (ouv, st) ← readBytes 4 st
  let (ove, st) ← readBytes 4 st
  let (oen, st) ← readBytes 4 st
  let st := seekStart (base + leU32 osh) st
  let (shaders, st) ← readN read_shader (leU32 nsh) st
  let st := seekStart (base + leU32 otr) st
  let (triangles, st) ← readN read_triangle (leU32 ntr) st
  let st := seekStart (base + leU32 ouv) st
  let (texcoords, st) ← readN read_texcoord (leU32 nv) st
  let st := seekStart (base + leU32 ove) st
  let (vertices, st) ← readN read_vertex (leU32 nv * leU32 nfr) st
  .ok (⟨nm, leU32 nv, leU32 nfr, shaders, triangles, texcoords, vertices⟩,
       st, base + leU32 oen)

/-- `read_surface` (md3.rs lines 301-364): the body followed by the final
`stream_position > offset_end` check. -/
def read_surface (st0 : Stream) : Except MD3ReadError (MD3Surface × Stream) := do
  let (surf, st, oend) ← read_surface_core st0
  if oend < st.pos then .error (.AfterEnd st.pos) else .ok (surf, st)

/-- `read_md3` (md3.rs lines 170-229) up to, but not including, its final
position check: yields the model, the final stream position, and the header's
declared end offset.  The tag-record count `num_tags * num_frames`
(md3.rs line 216) is a `u32 * u32` multiply, which wraps in a release build;
it is modelled as the product modulo `2^32`. -/
def read_md3_core (bytes : List ℕ) :
    Except MD3ReadError (MD3Model × ℕ × ℕ) := do
  let st0 : Stream := ⟨bytes, 0⟩
  let (magic, st) ← readBytes 4 st0
  if magic ≠ MD3_ID then
    .error (.WrongId magic)
  else do
  let (ver, st) ← readBytes 4 st
  if leI32 ver ≠ MD3_VERSION then
    .error (.UnsupportedVersion (leI32 ver))
  else do
  let (nm, st) ← readBytes 64 st
  let st := seekCur 4 st
  let (nfr, st) ← readBytes 4 st
  let (ntg, st) ← readBytes 4 st
  let (nsf, st) ← readBytes 4 st
  let st := seekCur 4 st
  let (ofr, st) ← readBytes 4 st
  let (otg, st) ← readBytes 4 st
  let (osf, st) ← readBytes 4 st
  let (oen, st) ← readBytes 4 st
  let st := seekStart (leU32 ofr) st
  let (frames, st) ← readN read_frame (leU32 nfr) st
  let st := seekStart (leU32 otg) st
  let (tags, st) ← readN read_tag ((leU32 ntg * leU32 nfr) % 2 ^ 32) st
  let st := seekStart (leU32 osf) st
  let (surfaces, st) ← readN read_surface (leU32 nsf) st
  .ok (⟨MD3_VERSION, nm, leU32 ntg, frames, tags, surfaces⟩, st.pos, leU32 oen)

/-- `read_md3` (md3.rs lines 170-229): the body followed by the final
`stream_position > offset_end` check. -/
def read_md3 (bytes : List ℕ) : Except MD3ReadError MD3Model := do
  let (model, pos, oend) ← read_md3_core bytes
  if oend < pos then .error (.AfterEnd pos) else .ok model

/-! ## Width negotiation (`Texture::try_from_md3`, render.rs lines 506-537) -/

/-- `(1..maxpot).rev().filter(|&i| 2i32.pow(i) < width).next().unwrap_or(0)`
(render.rs lines 507-509): the largest exponent `i` in `[1, maxpot)` with
`2^i < width`, or `0` when there is none; the argument counts down from
`maxpot - 1`. -/
def findTwoPower (width : ℕ) : ℕ → ℕ
  | 0 => 0
  | i + 1 => if 2 ^ (i + 1) < width then i + 1 else findTwoPower width i

/-- The initial `two_power` of the upload loop.  `MAX_TEXTURE_POT` is a
process-wide value read from the GL context at startup; it enters the model as
the parameter `maxpot`. -/
def initTwoPower (maxpot width : ℕ) : ℕ := findTwoPower width (maxpot - 1)

/-- The widths attempted by the upload loop of `try_from_md3` when every
attempt reports `TooBig`: the current width is tried, then the loop retries
with `width = 2^two_power` and decrements `two_power`, abandoning once
`two_power` hits `0`. -/
def loopWidths (width : ℕ) : ℕ → List ℕ
  | 0 => [width]
  | k + 1 => width :: loopWidths (2 ^ (k + 1)) k

/-- All widths attempted for a surface with `num_verts = V` under hardware cap
`maxpot`, in order, when every upload attempt fails. -/
def attemptedWidths (V maxpot : ℕ) : List ℕ := loopWidths V (initTwoPower maxpot V)

/-! ## Concrete byte vectors used to exercise the decoder -/

/-- A minimal well-formed MD3 file: magic, version 15, an all-zero name, zero
counts, and every offset pointing at the end of the 108-byte header. -/
def minBytes : List ℕ :=
  MD3_ID ++ [15, 0, 0, 0] ++ List.replicate 64 0 ++ [0, 0, 0, 0] ++
  [0, 0, 0, 0] ++ [0, 0, 0, 0] ++ [0, 0, 0, 0] ++ [0, 0, 0, 0] ++
  [108, 0, 0, 0] ++ [108, 0, 0, 0] ++ [108, 0, 0, 0] ++ [108, 0, 0, 0]

/-- `minBytes` with its declared end offset lowered to `107`, one byte before
the actual final read position `108`. -/
def shortBytes : List ℕ :=
  MD3_ID ++ [15, 0, 0, 0] ++ List.replicate 64 0 ++ [0, 0, 0, 0] ++
  [0, 0, 0, 0] ++ [0, 0, 0, 0] ++ [0, 0, 0, 0] ++ [0, 0, 0, 0] ++
  [108, 0, 0, 0] ++ [108, 0, 0, 0] ++ [108, 0, 0, 0] ++ [107, 0, 0, 0]

/-- The model decoded from `minBytes`. -/
def minModel : MD3Model :=
  ⟨MD3_VERSION, List.replicate 64 0, 0, [], [], []⟩

/-- A minimal well-formed surface block: zero counts, every offset pointing at
the end of the 108-byte surface header. -/
def minSurfBytes : List ℕ :=
  MD3_ID ++ List.replicate 64 0 ++ [0, 0, 0, 0] ++
  [0, 0, 0, 0] ++ [0, 0, 0, 0] ++ [0, 0, 0, 0] ++ [0, 0, 0, 0] ++
  [108, 0, 0, 0] ++ [108, 0, 0, 0] ++ [108, 0, 0, 0] ++ [108, 0, 0, 0] ++
  [108, 0, 0, 0]

/-- The surface decoded from `minSurfBytes`. -/
def minSurf : MD3Surface := ⟨List.replicate 64 0, 0, 0, [], [], [], []⟩

/-- A surface block holding exactly one triangle record `(1, 2, 3)` right
after its 108-byte header (triangle offset 108, end offset 120). -/
def triSurfBytes : List ℕ :=
  MD3_ID ++ List.replicate 64 0 ++ [0, 0, 0, 0] ++
  [0, 0, 0, 0] ++ [0, 0, 0, 0] ++ [0, 0, 0, 0] ++ [1, 0, 0, 0] ++
  [108, 0, 0, 0] ++ [108, 0, 0, 0] ++ [120, 0, 0, 0] ++ [120, 0, 0, 0] ++
  [120, 0, 0, 0] ++ [1, 0, 0, 0] ++ [2, 0, 0, 0] ++ [3, 0, 0, 0]

/-- The surface decoded from `triSurfBytes`: the stored triangle `(1, 2, 3)`
comes out with its first and third index swapped. -/
def triSurf : MD3Surface :=
  ⟨List.replicate 64 0, 0, 0, [], [⟨[3, 2, 1]⟩], [], []⟩

/-- A 220-byte file declaring 2 frames and `2^31` tags: the `u32` product
`2^31 * 2` wraps to `0`, so the decoder reads no tag records at all, yet the
file is accepted (two 56-byte frame records at offset 108, end offset 220). -/
def wrapBytes : List ℕ :=
  MD3_ID ++ [15, 0, 0, 0] ++ List.replicate 64 0 ++ [0, 0, 0, 0] ++
  [2, 0, 0, 0] ++ [0, 0, 0, 128] ++ [0, 0, 0, 0] ++ [0, 0, 0, 0] ++
  [108, 0, 0, 0] ++ [220, 0, 0, 0] ++ [220, 0, 0, 0] ++ [220, 0, 0, 0] ++
  List.replicate 112 0

/-! ## Properties of the rounding model -/

lemma sub_floor_nonneg (x : ℚ) : 0 ≤ x - ⌊x⌋ := by
  have := Int.floor_le x
  linarith

lemma sub_floor_lt_one (x : ℚ) : x - ⌊x⌋ < 1 := by
  have := Int.lt_floor_add_one x
  linarith

lemma rne_ge (x : ℚ) : x - 1/2 ≤ (rne x : ℚ) := by
  unfold rne
  have h0 := sub_floor_nonneg x
  have h1 := sub_floor_lt_one x
  split_ifs with hf hg ho <;> push_cast <;> linarith

lemma rne_le (x : ℚ) : (rne x : ℚ) ≤ x + 1/2 := by
  unfold rne
  have h0 := sub_floor_nonneg x
  have h1 := sub_floor_lt_one x
  split_ifs with hf hg ho <;> push_cast <;> linarith

lemma rne_le_ceil (x : ℚ) : rne x ≤ ⌈x⌉ := by
  unfold rne
  split_ifs with hf hg ho
  · exact Int.floor_le_ceil x
  · have hx : (⌊x⌋ : ℚ) < x := by linarith
    have : ⌊x⌋ < ⌈x⌉ := Int.lt_ceil.mpr hx
    omega
  · exact Int.floor_le_ceil x
  · have hx : (⌊x⌋ : ℚ) < x := by
      have h2 : ¬ (x - ⌊x⌋ < 1/2) := hf
      push_neg at h2
      linarith
    have : ⌊x⌋ < ⌈x⌉ := Int.lt_ceil.mpr hx
    omega

lemma rne_ge_floor (x : ℚ) : ⌊x⌋ ≤ rne x := by
  unfold rne
  split_ifs <;> omega

lemma rne_eq_of_eq_int {x : ℚ} {n : ℤ} (h : x = (n : ℚ)) : rne x = n := by
  subst h
  unfold rne
  simp

lemma two_zpow_pos (e : ℤ) : (0 : ℚ) < 2 ^ e := zpow_pos (by norm_num) e

lemma two_zpow_mul (a b : ℤ) : (2 : ℚ) ^ a * 2 ^ b = 2 ^ (a + b) :=
  (zpow_add₀ (by norm_num : (2:ℚ) ≠ 0) a b).symm

lemma r32_eq {q : ℚ} (hq : 0 < q) :
    r32 q = ((rne (q * 2 ^ ((23 : ℤ) - Int.log 2 q)) : ℤ) : ℚ) * 2 ^ (Int.log 2 q - 23) := by
  unfold r32
  rw [if_neg (not_le.mpr hq)]

lemma log2_zpow_le {q : ℚ} (hq : 0 < q) : (2 : ℚ) ^ Int.log 2 q ≤ q := by
  have h := Int.zpow_log_le_self (b := 2) (R := ℚ) (by norm_num) hq
  exact_mod_cast h

lemma log2_lt_zpow_succ (q : ℚ) : q < (2 : ℚ) ^ (Int.log 2 q + 1) := by
  have h := Int.lt_zpow_succ_log_self (b := 2) (R := ℚ) (by norm_num) q
  exact_mod_cast h

lemma sig_lower {q : ℚ} (hq : 0 < q) :
    (2 : ℚ) ^ (23 : ℤ) ≤ q * 2 ^ ((23 : ℤ) - Int.log 2 q) := by
  have h := mul_le_mul_of_nonneg_right (log2_zpow_le hq)
      (le_of_lt (two_zpow_pos ((23 : ℤ) - Int.log 2 q)))
  calc (2 : ℚ) ^ (23 : ℤ)
      = 2 ^ Int.log 2 q * 2 ^ ((23 : ℤ) - Int.log 2 q) := by
        rw [two_zpow_mul]; ring_nf
    _ ≤ q * 2 ^ ((23 : ℤ) - Int.log 2 q) := h

lemma sig_upper (q : ℚ) :
    q * 2 ^ ((23 : ℤ) - Int.log 2 q) < (2 : ℚ) ^ (24 : ℤ) := by
  have h := mul_lt_mul_of_pos_right (log2_lt_zpow_succ q)
      (two_zpow_pos ((23 : ℤ) - Int.log 2 q))
  calc q * 2 ^ ((23 : ℤ) - Int.log 2 q)
      < 2 ^ (Int.log 2 q + 1) * 2 ^ ((23 : ℤ) - Int.log 2 q) := h
    _ = (2 : ℚ) ^ (24 : ℤ) := by rw [two_zpow_mul]; ring_nf

lemma r32_pos {q : ℚ} (hq : 0 < q) : 0 < r32 q := by
  rw [r32_eq hq]
  have hs := sig_lower hq
  have h1 : (1 : ℚ) ≤ q * 2 ^ ((23 : ℤ) - Int.log 2 q) := by
    have : (1 : ℚ) ≤ (2 : ℚ) ^ (23 : ℤ) := by norm_num
    linarith
  have h2 := rne_ge (q * 2 ^ ((23 : ℤ) - Int.log 2 q))
  have h3 : (0 : ℚ) < ((rne (q * 2 ^ ((23 : ℤ) - Int.log 2 q)) : ℤ) : ℚ) := by linarith
  exact mul_pos h3 (two_zpow_pos _)

lemma r32_half_ulp_lower {q : ℚ} (hq : 0 < q) :
    q - 2 ^ (Int.log 2 q - 24) ≤ r32 q := by
  rw [r32_eq hq]
  set e := Int.log 2 q with he
  have h2 := rne_ge (q * 2 ^ ((23 : ℤ) - e))
  have hmul := mul_le_mul_of_nonneg_right h2 (le_of_lt (two_zpow_pos (e - 23)))
  calc q - 2 ^ (e - 24)
      = (q * 2 ^ ((23 : ℤ) - e) - 1/2) * 2 ^ (e - 23) := by
        have key1 : q * 2 ^ ((23 : ℤ) - e) * 2 ^ (e - 23) = q := by
          rw [mul_assoc, two_zpow_mul]
          have h23 : ((23 : ℤ) - e) + (e - 23) = 0 := by ring
          rw [h23, zpow_zero, mul_one]
        have key2 : (1 : ℚ) / 2 * 2 ^ (e - 23) = 2 ^ (e - 24) := by
          have h24 : (2 : ℚ) ^ (e - 23) = 2 ^ (e - 24) * 2 ^ (1 : ℤ) := by
            rw [two_zpow_mul]; ring_nf
          rw [h24, zpow_one]
          ring
        rw [sub_mul, key1, key2]
    _ ≤ ((rne (q * 2 ^ ((23 : ℤ) - e)) : ℤ) : ℚ) * 2 ^ (e - 23) := hmul

lemma r32_le_of_le_int {q : ℚ} (hq : 0 < q) (he : Int.log 2 q ≤ 23) {m : ℤ}
    (hm : q ≤ (m : ℚ)) : r32 q ≤ (m : ℚ) := by
  rw [r32_eq hq]
  set e := Int.log 2 q with hedef
  have hk : ((23 : ℤ) - e).toNat = (23 : ℤ) - e := Int.toNat_of_nonneg (by omega)
  set s := q * 2 ^ ((23 : ℤ) - e) with hs
  have hceil : (⌈s⌉ : ℚ) ≤ (m : ℚ) * 2 ^ ((23 : ℤ) - e) := by
    have hsle : s ≤ (m : ℚ) * 2 ^ ((23 : ℤ) - e) :=
      mul_le_mul_of_nonneg_right hm (le_of_lt (two_zpow_pos _))
    have hint : ((m * 2 ^ ((23 : ℤ) - e).toNat : ℤ) : ℚ) = (m : ℚ) * 2 ^ ((23 : ℤ) - e) := by
      push_cast
      rw [← zpow_natCast (2 : ℚ) ((23 : ℤ) - e).toNat, hk]
    have := Int.ceil_le.mpr (le_of_le_of_eq hsle hint.symm)
    calc (⌈s⌉ : ℚ) ≤ ((m * 2 ^ ((23 : ℤ) - e).toNat : ℤ) : ℚ) := by exact_mod_cast this
      _ = (m : ℚ) * 2 ^ ((23 : ℤ) - e) := hint
  have hrne : ((rne s : ℤ) : ℚ) ≤ (⌈s⌉ : ℚ) := by exact_mod_cast rne_le_ceil s
  have hmul := mul_le_mul_of_nonneg_right (le_trans hrne hceil)
      (le_of_lt (two_zpow_pos (e - 23)))
  calc ((rne s : ℤ) : ℚ) * 2 ^ (e - 23)
      ≤ (m : ℚ) * 2 ^ ((23 : ℤ) - e) * 2 ^ (e - 23) := hmul
    _ = (m : ℚ) := by
        rw [mul_assoc, two_zpow_mul]
        have : ((23 : ℤ) - e) + (e - 23) = 0 := by ring
        rw [this, zpow_zero, mul_one]

lemma r32_le_one {q : ℚ} (hq0 : 0 < q) (hq : q < 1) : r32 q ≤ 1 := by
  rw [r32_eq hq0]
  set e := Int.log 2 q with hedef
  have he : e + 1 ≤ 0 := by
    by_contra hcon
    push_neg at hcon
    have h0e : (0 : ℤ) ≤ e := by omega
    have : (2 : ℚ) ^ (0 : ℤ) ≤ 2 ^ e := zpow_le_zpow_right₀ (by norm_num) h0e
    have hle := log2_zpow_le hq0
    simp only [zpow_zero] at this
    linarith
  set s := q * 2 ^ ((23 : ℤ) - e) with hs
  have hceil : (⌈s⌉ : ℚ) ≤ (2 : ℚ) ^ (24 : ℤ) := by
    have h1 : s ≤ ((2 ^ 24 : ℤ) : ℚ) := by
      have := sig_upper q
      rw [← hedef, ← hs] at this
      push_cast
      have h24 : ((2 : ℚ) ^ (24 : ℤ)) = 2 ^ (24 : ℕ) := by norm_num
      linarith [this, h24.le]
    have := Int.ceil_le.mpr h1
    have hc : (⌈s⌉ : ℚ) ≤ ((2 ^ 24 : ℤ) : ℚ) := by exact_mod_cast this
    calc (⌈s⌉ : ℚ) ≤ ((2 ^ 24 : ℤ) : ℚ) := hc
      _ = (2 : ℚ) ^ (24 : ℤ) := by norm_num
  have hrne : ((rne s : ℤ) : ℚ) ≤ (⌈s⌉ : ℚ) := by exact_mod_cast rne_le_ceil s
  have hmul := mul_le_mul_of_nonneg_right (le_trans hrne hceil)
      (le_of_lt (two_zpow_pos (e - 23)))
  calc ((rne s : ℤ) : ℚ) * 2 ^ (e - 23)
      ≤ (2 : ℚ) ^ (24 : ℤ) * 2 ^ (e - 23) := hmul
    _ = (2 : ℚ) ^ (e + 1) := by rw [two_zpow_mul]; ring_nf
    _ ≤ (2 : ℚ) ^ (0 : ℤ) := zpow_le_zpow_right₀ (by norm_num) he
    _ = 1 := by norm_num

lemma r32_eq_self_of_int {q : ℚ} (hq : 0 < q) {m : ℤ}
    (h : q * 2 ^ ((23 : ℤ) - Int.log 2 q) = (m : ℚ)) : r32 q = q := by
  rw [r32_eq hq, rne_eq_of_eq_int h, ← h, mul_assoc, two_zpow_mul]
  have h23 : ((23 : ℤ) - Int.log 2 q) + (Int.log 2 q - 23) = 0 := by ring
  rw [h23, zpow_zero, mul_one]

lemma log2_eq_of_bounds {q : ℚ} {a : ℤ} (hq : 0 < q)
    (h1 : (2 : ℚ) ^ a ≤ q) (h2 : q < 2 ^ (a + 1)) : Int.log 2 q = a := by
  have hb : (1 : ℕ) < 2 := by norm_num
  have hle : a ≤ Int.log 2 q := by
    rw [← Int.zpow_le_iff_le_log hb hq]
    exact_mod_cast h1
  have hlt : Int.log 2 q < a + 1 := by
    rw [← Int.lt_zpow_iff_log_lt hb hq]
    exact_mod_cast h2
  omega

lemma log2_natCast (n : ℕ) :
    Int.log 2 ((n : ℚ)) = (Nat.log 2 n : ℤ) := by
  rw [Int.log_natCast]

lemma r32_natCast {n : ℕ} (h1 : 1 ≤ n) (h24 : n ≤ 2 ^ 24) : r32 (n : ℚ) = n := by
  have hq : (0 : ℚ) < n := by exact_mod_cast h1
  have hlog := log2_natCast n
  set eN := Nat.log 2 n with heN
  have heN24 : eN ≤ 24 := by
    have hlt : n < 2 ^ 25 := lt_of_le_of_lt h24 (by norm_num)
    have hlog25 := (Nat.lt_pow_iff_log_lt (b := 2) (x := 25) (y := n)
      (by norm_num) (show n ≠ 0 by omega)).mp hlt
    omega
  rcases Nat.lt_or_ge eN 24 with hcase | hcase
  · apply r32_eq_self_of_int hq (m := (n : ℤ) * 2 ^ (23 - eN))
    rw [hlog]
    have h1' : ((23 : ℤ) - (eN : ℤ)) = ((23 - eN : ℕ) : ℤ) := by omega
    rw [h1', zpow_natCast]
    push_cast
    ring
  · have heq : eN = 24 := by omega
    have hle : 2 ^ eN ≤ n := by
      rw [heN]
      exact Nat.pow_log_le_self 2 (show n ≠ 0 by omega)
    have hn : n = 2 ^ 24 := by
      rw [heq] at hle
      omega
    subst hn
    apply r32_eq_self_of_int hq (m := 2 ^ 23)
    rw [hlog, heq]
    push_cast
    rw [zpow_neg, zpow_one]
    norm_num

lemma r32_one : r32 (1 : ℚ) = 1 := by
  have h := r32_natCast (n := 1) (by norm_num) (by norm_num)
  simpa using h

lemma ceil_r32_eq_one {q : ℚ} (h0 : 0 < q) (h1 : q ≤ 1) : ⌈r32 q⌉ = 1 := by
  rcases eq_or_lt_of_le h1 with heq | hlt
  · rw [heq, r32_one]
    norm_num
  · have hpos := r32_pos h0
    have hle := r32_le_one h0 hlt
    have hup : ⌈r32 q⌉ ≤ 1 := Int.ceil_le.mpr (by exact_mod_cast hle)
    have hlo : 0 < ⌈r32 q⌉ := Int.lt_ceil.mpr (by exact_mod_cast hpos)
    omega

lemma r32_ge_of_gt_pow24 {W : ℕ} (h : 2 ^ 24 < W) : (2 ^ 24 : ℚ) ≤ r32 (W : ℚ) := by
  have hW0 : (0 : ℚ) < W := by
    have : 0 < W := by omega
    exact_mod_cast this
  set e := Int.log 2 (W : ℚ) with hedef
  have he24 : (24 : ℤ) ≤ e := by
    have h1 : Int.log 2 (((2 ^ 24 : ℕ) : ℚ)) = (24 : ℤ) := by
      rw [Int.log_natCast, Nat.log_pow (by norm_num)]
      norm_num
    have h2 : Int.log 2 (((2 ^ 24 : ℕ) : ℚ)) ≤ Int.log 2 (W : ℚ) := by
      apply Int.log_mono_right
      · positivity
      · exact_mod_cast le_of_lt h
    omega
  have hulp := r32_half_ulp_lower hW0
  rw [← hedef] at hulp
  rcases eq_or_lt_of_le he24 with he | he
  · have hz : (2 : ℚ) ^ (e - 24) = 1 := by
      rw [← he]
      norm_num
    rw [hz] at hulp
    have : (2 ^ 24 : ℚ) + 1 ≤ (W : ℚ) := by
      have : (2 ^ 24 : ℕ) + 1 ≤ W := by omega
      exact_mod_cast this
    linarith
  · have hWe : (2 : ℚ) ^ e ≤ (W : ℚ) := by
      rw [hedef]
      exact log2_zpow_le hW0
    have h1 : (2 : ℚ) ^ (e - 24) ≤ 2 ^ (e - 1) :=
      zpow_le_zpow_right₀ (by norm_num) (by omega)
    have h2 : (2 : ℚ) ^ e = 2 ^ (e - 1) * 2 := by
      have h2a := two_zpow_mul (e - 1) 1
      rw [zpow_one] at h2a
      calc (2 : ℚ) ^ e = 2 ^ (e - 1 + 1) := by congr 1; ring
        _ = 2 ^ (e - 1) * 2 := h2a.symm
    have h3 : (2 : ℚ) ^ (24 : ℤ) ≤ 2 ^ (e - 1) :=
      zpow_le_zpow_right₀ (by norm_num) (by omega)
    have h4 : (2 : ℚ) ^ (24 : ℤ) = (2 ^ 24 : ℚ) := by norm_num
    linarith

lemma nat_ceil_div_exact {W d m V : ℕ} (hW : 1 ≤ W) (hdm : W * d + m = V) (hmlt : m < W) :
    (m = 0 → (V + W - 1) / W = d) ∧ (1 ≤ m → (V + W - 1) / W = d + 1) := by
  constructor
  · intro h0
    apply Nat.div_eq_of_lt_le
    · calc d * W = W * d := Nat.mul_comm d W
        _ ≤ V + W - 1 := by omega
    · have hlt : V + W - 1 < W * d + W := by omega
      calc V + W - 1 < W * d + W := hlt
        _ = Nat.succ d * W := by rw [Nat.succ_mul]; ring
  · intro h1
    apply Nat.div_eq_of_lt_le
    · calc (d + 1) * W = W * d + W := by ring
        _ ≤ V + W - 1 := by omega
    · have hlt : V + W - 1 < W * d + W + W := by omega
      calc V + W - 1 < W * d + W + W := hlt
        _ = Nat.succ (d + 1) * W := by rw [Nat.succ_mul]; ring

/-- `(V as f32 / W as f32).ceil() as usize` equals the exact ceiling `⌈V/W⌉`
whenever `V ≤ 2^24`, i.e. whenever `V` is exactly representable in `f32`. -/
theorem rows32_exact {V W : ℕ} (hV1 : 1 ≤ V) (hV : V ≤ 2 ^ 24) (hW : 1 ≤ W) :
    rows32 V W = (V + W - 1) / W := by
  have hW0 : (0 : ℚ) < W := by exact_mod_cast hW
  have hV0 : (0 : ℚ) < V := by exact_mod_cast hV1
  unfold rows32
  rw [r32_natCast hV1 hV]
  rcases le_or_lt W (2 ^ 24) with hWs | hWb
  · -- the width also converts exactly
    rw [r32_natCast hW hWs]
    set q : ℚ := (V : ℚ) / (W : ℚ) with hqdef
    have hq0 : 0 < q := div_pos hV0 hW0
    have hdm := Nat.div_add_mod V W
    set d := V / W with hd
    set m := V % W with hm
    have hmlt : m < W := Nat.mod_lt V (by omega)
    rcases Nat.eq_zero_or_pos m with hm0 | hm1
    · -- W divides V : the quotient is an exact integer
      have hVdw : V = W * d := by omega
      have hqk : q = (d : ℚ) := by
        rw [hqdef, hVdw]
        push_cast
        field_simp
      have hd1 : 1 ≤ d := by
        rcases Nat.eq_zero_or_pos d with h0 | h1
        · rw [h0, Nat.mul_zero] at hVdw
          omega
        · exact h1
      have hd24 : d ≤ 2 ^ 24 := by
        have : d ≤ V := by
          calc d ≤ W * d := Nat.le_mul_of_pos_left d (by omega)
            _ = V := hVdw.symm
        omega
      rw [hqk, r32_natCast hd1 hd24, Int.ceil_natCast]
      have hrhs : (V + W - 1) / W = d := (nat_ceil_div_exact hW hdm hmlt).1 hm0
      rw [hrhs]
      simp
    · -- W does not divide V
      have hrhs : (V + W - 1) / W = d + 1 := (nat_ceil_div_exact hW hdm hmlt).2 hm1
      rw [hrhs]
      have hfloor : ((d : ℚ)) ≤ q ∧ q < (d : ℚ) + 1 := by
        constructor
        · rw [hqdef, le_div_iff₀ hW0]
          have hc1 : d * W = W * d := by ring
          have hdW : (d * W : ℕ) ≤ V := by omega
          exact_mod_cast hdW
        · rw [hqdef, div_lt_iff₀ hW0]
          have hc1 : (d + 1) * W = W * d + W := by ring
          have hdW : V < (d + 1) * W := by omega
          exact_mod_cast hdW
      -- upper bound : the rounded quotient never exceeds d+1
      have hno1 : W ≠ 1 := by
        intro h1
        rw [h1] at hmlt
        omega
      have hq24 : q < 2 ^ 24 := by
        rw [hqdef, div_lt_iff₀ hW0]
        have h2W : (2 : ℚ) ≤ (W : ℚ) := by
          have : 2 ≤ W := by omega
          exact_mod_cast this
        have hVq : (V : ℚ) ≤ 2 ^ 24 := by exact_mod_cast hV
        nlinarith
      have he23 : Int.log 2 q ≤ 23 := by
        have h1 : (2 : ℚ) ^ Int.log 2 q ≤ q := log2_zpow_le hq0
        have h2 : (2 : ℚ) ^ Int.log 2 q < 2 ^ (24 : ℤ) := by
          have : (2 : ℚ) ^ (24 : ℤ) = (2 ^ 24 : ℚ) := by norm_num
          linarith
        have := (zpow_lt_zpow_iff_right₀ (by norm_num : (1:ℚ) < 2)).mp h2
        omega
      have hub : ⌈r32 q⌉ ≤ (d : ℤ) + 1 := by
        apply Int.ceil_le.mpr
        have h := r32_le_of_le_int hq0 he23 (m := (d : ℤ) + 1) (by push_cast; linarith [hfloor.2])
        exact_mod_cast h
      -- lower bound : rounding cannot bring the quotient down to d
      have hlb : (d : ℚ) < r32 q := by
        have hulp := r32_half_ulp_lower hq0
        set e := Int.log 2 q with hedef
        have hulpW : (2 : ℚ) ^ (e - 24) ≤ 1 / (W : ℚ) := by
          have h1 : (W : ℚ) * 2 ^ e ≤ (2 : ℚ) ^ (24 : ℤ) := by
            have h2 : (W : ℚ) * 2 ^ e ≤ (W : ℚ) * q :=
              mul_le_mul_of_nonneg_left (by rw [hedef]; exact log2_zpow_le hq0) (le_of_lt hW0)
            have h3 : (W : ℚ) * q = (V : ℚ) := by
              rw [hqdef]
              field_simp
            have h4 : (V : ℚ) ≤ (2 : ℚ) ^ (24 : ℤ) := by
              have : (2 : ℚ) ^ (24 : ℤ) = (2 ^ 24 : ℚ) := by norm_num
              rw [this]
              exact_mod_cast hV
            linarith
          rw [le_div_iff₀ hW0]
          calc (2 : ℚ) ^ (e - 24) * W = (W : ℚ) * 2 ^ e * 2 ^ (-24 : ℤ) := by
                rw [mul_assoc (W : ℚ), two_zpow_mul]
                ring_nf
            _ ≤ (2 : ℚ) ^ (24 : ℤ) * 2 ^ (-24 : ℤ) :=
                mul_le_mul_of_nonneg_right h1 (le_of_lt (two_zpow_pos _))
            _ = 1 := by rw [two_zpow_mul]; norm_num
        have hVc : (V : ℚ) = (W : ℚ) * (d : ℚ) + (m : ℚ) := by
          exact_mod_cast (congrArg (fun n => ((n : ℕ) : ℚ)) hdm).symm
        have hqd : q - (d : ℚ) = (m : ℚ) / (W : ℚ) := by
          rw [hqdef, hVc]
          field_simp
        have hfrac : 1 / (W : ℚ) ≤ q - (d : ℚ) := by
          rw [hqd]
          have hm1' : (1 : ℚ) ≤ (m : ℚ) := by exact_mod_cast hm1
          gcongr
        rcases Nat.eq_zero_or_pos d with hd0 | hdpos
        · have := r32_pos hq0
          rw [hd0]
          push_cast
          linarith
        · have hstrict : (2 : ℚ) ^ (e - 24) < q - (d : ℚ) := by
            rcases lt_or_eq_of_le hfrac with hlt | heqq
            · linarith
            · rcases lt_or_eq_of_le hulpW with hlt2 | heq2
              · linarith
              · exfalso
                -- a half-ulp tie here would force V = 2^24 + 1
                have he0 : (0 : ℤ) ≤ e := by
                  have h1q : (1 : ℚ) ≤ q := by
                    have h1d : (1 : ℚ) ≤ (d : ℚ) := by exact_mod_cast hdpos
                    linarith [hfloor.1]
                  have := Int.log_mono_right (b := 2) (by norm_num : (0:ℚ) < 1) h1q
                  rw [Int.log_one_right] at this
                  rw [hedef]
                  omega
                set eT := e.toNat with heT
                have heeT : e = (eT : ℤ) := by omega
                have heT23 : eT ≤ 23 := by omega
                have hpow_cast : ((2 ^ eT : ℕ) : ℚ) = (2 : ℚ) ^ e := by
                  rw [heeT, zpow_natCast]
                  push_cast
                  ring
                have hdge : 2 ^ eT ≤ d := by
                  have h1 : (2 : ℚ) ^ e ≤ q := by rw [hedef]; exact log2_zpow_le hq0
                  have h2 : ((2 ^ eT : ℕ) : ℚ) < (d : ℚ) + 1 := by
                    rw [hpow_cast]
                    linarith [hfloor.2]
                  have h3 : 2 ^ eT < d + 1 := by exact_mod_cast h2
                  omega
                have hWpow : W = 2 ^ (24 - eT) := by
                  have h1 : (W : ℚ) = (2 : ℚ) ^ ((24 : ℤ) - e) := by
                    have h2 : (2 : ℚ) ^ (e - 24) * (W : ℚ) = 1 := by
                      rw [heq2]
                      field_simp
                    have h3 : (2 : ℚ) ^ ((24 : ℤ) - e) * ((2 : ℚ) ^ (e - 24) * (W : ℚ)) =
                        (2 : ℚ) ^ ((24 : ℤ) - e) := by rw [h2, mul_one]
                    rw [← mul_assoc, two_zpow_mul] at h3
                    have h4 : ((24 : ℤ) - e) + (e - 24) = 0 := by ring
                    rw [h4, zpow_zero, one_mul] at h3
                    exact h3
                  have h5 : ((2 ^ (24 - eT) : ℕ) : ℚ) = (2 : ℚ) ^ ((24 : ℤ) - e) := by
                    have h6 : ((24 : ℤ) - e) = ((24 - eT : ℕ) : ℤ) := by omega
                    rw [h6, zpow_natCast]
                    push_cast
                    ring
                  have h7 : (W : ℚ) = ((2 ^ (24 - eT) : ℕ) : ℚ) := by rw [h1, ← h5]
                  exact_mod_cast h7
                have hmone : m = 1 := by
                  have h1 : (m : ℚ) / (W : ℚ) = 1 / (W : ℚ) := by rw [← hqd, ← heqq]
                  have h2 : (m : ℚ) = 1 := by
                    field_simp at h1
                    exact_mod_cast h1
                  exact_mod_cast h2
                have hVbig : 2 ^ 24 + 1 ≤ V := by
                  have h1 : 2 ^ (24 - eT) * 2 ^ eT = 2 ^ 24 := by
                    rw [← pow_add]
                    congr 1
                    omega
                  calc 2 ^ 24 + 1 = 2 ^ (24 - eT) * 2 ^ eT + 1 := by rw [h1]
                    _ ≤ W * d + m := by
                        rw [hWpow, hmone]
                        have := Nat.mul_le_mul_left (2 ^ (24 - eT)) hdge
                        omega
                    _ = V := hdm
                omega
          linarith [hulp, hstrict]
      have hlbc : (d : ℤ) < ⌈r32 q⌉ := Int.lt_ceil.mpr (by exact_mod_cast hlb)
      have hfin : ⌈r32 q⌉ = (d : ℤ) + 1 :=
        le_antisymm hub (Int.add_one_le_iff.mpr hlbc)
      rw [hfin]
      have hcast : ((d : ℤ) + 1) = ((d + 1 : ℕ) : ℤ) := by push_cast; ring
      rw [hcast, Int.toNat_natCast]
  · -- the width rounds to at least 2^24, so the quotient lands in (0, 1]
    have hr32W := r32_ge_of_gt_pow24 hWb
    have hrWpos : 0 < r32 (W : ℚ) := r32_pos hW0
    have hq'0 : 0 < (V : ℚ) / r32 (W : ℚ) := div_pos hV0 hrWpos
    have hq'1 : (V : ℚ) / r32 (W : ℚ) ≤ 1 := by
      rw [div_le_one hrWpos]
      have hVle : (V : ℚ) ≤ (2 ^ 24 : ℚ) := by exact_mod_cast hV
      linarith
    rw [ceil_r32_eq_one hq'0 hq'1]
    have hrhs : (V + W - 1) / W = 1 := by
      apply Nat.div_eq_of_lt_le
      · omega
      · have h2 : V + W - 1 < 2 * W := by omega
        calc V + W - 1 < 2 * W := h2
          _ = Nat.succ 1 * W := by ring
    rw [hrhs]
    rfl

/-! ### Concrete `f32` rounding values used by the counterexamples -/

lemma rne_int_add_half_even {n : ℤ} (h : n % 2 = 0) : rne ((n : ℚ) + 1/2) = n := by
  unfold rne
  have hfl : ⌊(n : ℚ) + 1/2⌋ = n := by
    rw [Int.floor_int_add]
    norm_num
  rw [hfl]
  norm_num [h]

lemma rne_int_add_half_odd {n : ℤ} (h : n % 2 = 1) : rne ((n : ℚ) + 1/2) = n + 1 := by
  unfold rne
  have hfl : ⌊(n : ℚ) + 1/2⌋ = n := by
    rw [Int.floor_int_add]
    norm_num
  rw [hfl]
  norm_num [h]

lemma log2_16777217 : Int.log 2 ((16777217 : ℚ)) = 24 :=
  log2_eq_of_bounds (by norm_num) (by norm_num) (by norm_num)

lemma log2_16777219 : Int.log 2 ((16777219 : ℚ)) = 24 :=
  log2_eq_of_bounds (by norm_num) (by norm_num) (by norm_num)

lemma log2_16777220 : Int.log 2 ((16777220 : ℚ)) = 24 :=
  log2_eq_of_bounds (by norm_num) (by norm_num) (by norm_num)

/-- `2^24 + 1` is exactly halfway between the `f32` neighbours `2^24` and
`2^24 + 2`; ties-to-even rounds it down to `2^24`. -/
lemma r32_16777217 : r32 (16777217 : ℚ) = 16777216 := by
  rw [r32_eq (by norm_num), log2_16777217]
  have hs : (16777217 : ℚ) * 2 ^ ((23 : ℤ) - 24) = ((8388608 : ℤ) : ℚ) + 1/2 := by
    norm_num
  rw [hs, rne_int_add_half_even (by norm_num)]
  norm_num

/-- `2^24 + 3` is exactly halfway between `2^24 + 2` and `2^24 + 4`;
ties-to-even rounds it up to `2^24 + 4`. -/
lemma r32_16777219 : r32 (16777219 : ℚ) = 16777220 := by
  rw [r32_eq (by norm_num), log2_16777219]
  have hs : (16777219 : ℚ) * 2 ^ ((23 : ℤ) - 24) = ((8388609 : ℤ) : ℚ) + 1/2 := by
    norm_num
  rw [hs, rne_int_add_half_odd (by norm_num)]
  norm_num

lemma r32_16777220 : r32 (16777220 : ℚ) = 16777220 := by
  apply r32_eq_self_of_int (by norm_num) (m := 8388610)
  rw [log2_16777220]
  norm_num

lemma rows32_16777217_1 : rows32 16777217 1 = 16777216 := by
  unfold rows32
  have h1 : ((16777217 : ℕ) : ℚ) = (16777217 : ℚ) := by norm_num
  have h2 : ((1 : ℕ) : ℚ) = (1 : ℚ) := by norm_num
  rw [h1, h2, r32_16777217, r32_one, div_one]
  have h3 : r32 (16777216 : ℚ) = 16777216 := by
    have h4 := r32_natCast (n := 16777216) (by norm_num) (by norm_num)
    have h5 : ((16777216 : ℕ) : ℚ) = (16777216 : ℚ) := by norm_num
    rw [h5] at h4
    exact h4
  rw [h3]
  norm_num
  rfl

lemma rows32_16777219_1 : rows32 16777219 1 = 16777220 := by
  unfold rows32
  have h1 : ((16777219 : ℕ) : ℚ) = (16777219 : ℚ) := by norm_num
  have h2 : ((1 : ℕ) : ℚ) = (1 : ℚ) := by norm_num
  rw [h1, h2, r32_16777219, r32_one, div_one, r32_16777220]
  norm_num
  rfl

lemma rows32_pos {V W : ℕ} (hV : 1 ≤ V) (hW : 1 ≤ W) : 1 ≤ rows32 V W := by
  unfold rows32
  have hV0 : (0 : ℚ) < V := by exact_mod_cast hV
  have hW0 : (0 : ℚ) < W := by exact_mod_cast hW
  have h1 : 0 < r32 ((V : ℚ)) / r32 ((W : ℚ)) :=
    div_pos (r32_pos hV0) (r32_pos hW0)
  have h2 := r32_pos h1
  have h3 : 0 < ⌈r32 (r32 ((V : ℚ)) / r32 ((W : ℚ)))⌉ := Int.lt_ceil.mpr (by exact_mod_cast h2)
  omega

lemma rows32_zero_zero : rows32 0 0 = 0 := by
  unfold rows32 r32
  norm_num

lemma pixelBytes_length (v : MD3FrameVertex) : (pixelBytes v).length = 16 := rfl

lemma zeroPixelBytes_eq : zeroPixelBytes = List.replicate 16 0 := rfl

lemma flatten_const16_length {l : List (List ℕ)} (h : ∀ x ∈ l, x.length = 16) :
    l.flatten.length = 16 * l.length := by
  induction l with
  | nil => simp
  | cons a t ih =>
    simp only [List.flatten_cons, List.length_append, List.length_cons]
    rw [h a (by simp), ih (fun x hx => h x (by simp [hx]))]
    ring

/-! ## Structure of the packed data -/

lemma zeroPixel_spec : (([0, 0, 0, 0] : List ℤ).flatMap i32ToBytes) = zeroPixelBytes := rfl

lemma pixelBytes_def (v : MD3FrameVertex) :
    pixelBytes v = v.to_pixel.flatMap i32ToBytes := rfl

lemma zeroPixelBytes_length : zeroPixelBytes.length = 16 := rfl

lemma take_append_replicate {α : Type} (xs : List α) (z : α) (n : ℕ)
    (h : xs.length ≤ n) :
    (xs ++ List.replicate n z).take n = xs ++ List.replicate (n - xs.length) z := by
  rw [List.take_append_eq_append_take, List.take_of_length_le h, List.take_replicate]
  congr 2
  omega

lemma chunk_mem_length {xs : List MD3FrameVertex} {ppf : ℕ} {x : List ℕ}
    (hx : x ∈ ((xs.map pixelBytes) ++ List.replicate ppf zeroPixelBytes).take ppf) :
    x.length = 16 := by
  have hx' := List.mem_of_mem_take hx
  rcases List.mem_append.mp hx' with h | h
  · obtain ⟨v, _, rfl⟩ := List.mem_map.mp h
    exact pixelBytes_length v
  · rw [List.eq_of_mem_replicate h]
    exact zeroPixelBytes_length

lemma pad_mem_length {xs : List MD3FrameVertex} {k : ℕ} {x : List ℕ}
    (hx : x ∈ (xs.map pixelBytes) ++ List.replicate k zeroPixelBytes) :
    x.length = 16 := by
  rcases List.mem_append.mp hx with h | h
  · obtain ⟨v, _, rfl⟩ := List.mem_map.mp h
    exact pixelBytes_length v
  · rw [List.eq_of_mem_replicate h]
    exact zeroPixelBytes_length

lemma singlePack_eq {verts : List MD3FrameVertex} {ppf : ℕ} (h : verts.length ≤ ppf) :
    singlePack verts ppf =
      some (((verts.map pixelBytes)
        ++ List.replicate (ppf - verts.length) zeroPixelBytes).flatten) := by
  unfold singlePack
  rw [if_pos h]

lemma singlePack_data_length {verts : List MD3FrameVertex} {ppf : ℕ}
    (h : verts.length ≤ ppf) :
    (((verts.map pixelBytes)
      ++ List.replicate (ppf - verts.length) zeroPixelBytes).flatten).length = ppf * 16 := by
  rw [flatten_const16_length (fun x hx => pad_mem_length hx)]
  simp only [List.length_append, List.length_map, List.length_replicate]
  omega

lemma generalPack_chunk_eq {verts : List MD3FrameVertex} {vertices ppf f : ℕ}
    (hslice : ((verts.drop (f * vertices)).take vertices).length = vertices)
    (hppf : vertices ≤ ppf) :
    ((((verts.drop (f * vertices)).take vertices).map pixelBytes)
        ++ List.replicate ppf zeroPixelBytes).take ppf =
      (((verts.drop (f * vertices)).take vertices).map pixelBytes)
        ++ List.replicate (ppf - vertices) zeroPixelBytes := by
  have hlen : (((verts.drop (f * vertices)).take vertices).map pixelBytes).length = vertices := by
    rw [List.length_map, hslice]
  rw [take_append_replicate _ _ _ (by rw [hlen]; exact hppf), hlen]

lemma flatMap_const_length {α : Type} {l : List α} {f : α → List ℕ} {k : ℕ}
    (h : ∀ x ∈ l, (f x).length = k) : (l.flatMap f).length = l.length * k := by
  induction l with
  | nil => simp
  | cons a t ih =>
    simp only [List.flatMap_cons, List.length_append, List.length_cons]
    rw [h a (by simp), ih (fun x hx => h x (by simp [hx])), Nat.succ_mul]
    ring

lemma le_mul_ceil_div (V W : ℕ) (hW : 1 ≤ W) : V ≤ W * ((V + W - 1) / W) := by
  have hdm := Nat.div_add_mod V W
  have hmlt : V % W < W := Nat.mod_lt V (by omega)
  rcases Nat.eq_zero_or_pos (V % W) with h0 | h1
  · have he := (nat_ceil_div_exact hW hdm hmlt).1 h0
    rw [he]
    omega
  · have he := (nat_ceil_div_exact hW hdm hmlt).2 h1
    rw [he]
    have hc : W * (V / W + 1) = W * (V / W) + W := by ring
    omega

lemma ceil_div_le_self (V W : ℕ) (hW : 1 ≤ W) : (V + W - 1) / W ≤ V := by
  have h1 : (V + W - 1) / W < V + 1 := by
    rw [Nat.div_lt_iff_lt_mul (by omega : 0 < W)]
    have hc : (V + 1) * W = V * W + W := by ring
    have hc2 : V ≤ V * W := Nat.le_mul_of_pos_right V (by omega)
    omega
  omega

lemma slice_length {verts : List MD3FrameVertex} {V F f : ℕ}
    (hlen : verts.length = V * F) (hf : f < F) :
    ((verts.drop (f * V)).take V).length = V := by
  rw [List.length_take, List.length_drop, hlen]
  have hc : (f + 1) * V = f * V + V := by ring
  have hc2 : (f + 1) * V ≤ F * V := Nat.mul_le_mul_right V (by omega)
  have hc3 : F * V = V * F := by ring
  omega

/-- C9: a surface with `vertexCount = 0` and an empty vertex list packs, with
width `None`, to the canonical empty grid: `vertices = 0`, `rows_per_frame = 0`
and an empty data buffer, for any frame count. -/
theorem make_animation_empty_surface (s : MD3Surface) (h0 : s.num_verts = 0)
    (hv : s.vertices = []) :
    make_animation s none = some ⟨0, s.num_frames % 2 ^ 32, 0, []⟩ := by
  unfold make_animation
  rw [h0, hv]
  by_cases hfr : 1 < s.num_frames
  · simp [hfr, generalPack, rows32_zero_zero]
  · simp [hfr, singlePack, rows32_zero_zero]

/-- C10: a surface with `frameCount = 0` but a positive vertex count (and the
empty vertex list the decoder would produce for it) makes `make_animation`
abort for every width `W ≥ 1`: the single-frame branch emits
`pixels_per_frame > 0` padding pixels while the declared height is `0`, so the
final buffer-length assertion fails. -/
theorem make_animation_zero_frames (s : MD3Surface) (W : ℕ) (hf : s.num_frames = 0)
    (hV : 1 ≤ s.num_verts) (hv : s.vertices = []) (hW : 1 ≤ W) :
    make_animation s (some W) = none := by
  have hrows := rows32_pos hV hW
  have hppf : 0 < W * rows32 s.num_verts W := Nat.mul_pos (by omega) (by omega)
  have hdata : ((List.replicate (W * rows32 s.num_verts W) zeroPixelBytes).flatten).length
      = 16 * (W * rows32 s.num_verts W) := by
    rw [flatten_const16_length (fun x hx => by rw [List.eq_of_mem_replicate hx]; rfl),
        List.length_replicate]
  unfold make_animation
  rw [hf, hv]
  simp only [Nat.lt_irrefl, if_false, Nat.zero_mul, Nat.mul_zero]
  simp [singlePack, hdata]
  refine ⟨by omega, by omega, ?_⟩
  intro hz
  exact absurd (congrArg List.length hz) (by simp [zeroPixelBytes])

lemma generalPack_spec {verts : List MD3FrameVertex} {V F ppf : ℕ}
    (hlen : verts.length = V * F) (hppf : V ≤ ppf) :
    generalPack verts V F ppf = some ((List.range F).flatMap (fun f =>
      ((verts.drop (f * V)).take V).flatMap pixelBytes ++
      (List.replicate (ppf - V) zeroPixelBytes).flatten)) := by
  unfold generalPack
  rw [if_pos (by rw [hlen]; exact Nat.le_of_eq (Nat.mul_comm F V))]
  congr 1
  rw [List.flatMap_def, List.flatMap_def]
  congr 1
  apply List.map_congr_left
  intro f hf
  rw [generalPack_chunk_eq (slice_length hlen (List.mem_range.mp hf)) hppf,
      List.flatten_append, ← List.flatMap_def]

lemma block_length {verts : List MD3FrameVertex} {V F ppf f : ℕ}
    (hlen : verts.length = V * F) (hppf : V ≤ ppf) (hf : f < F) :
    (((verts.drop (f * V)).take V).flatMap pixelBytes ++
      (List.replicate (ppf - V) zeroPixelBytes).flatten).length = ppf * 16 := by
  rw [List.length_append,
      flatMap_const_length (fun v _ => pixelBytes_length v),
      flatten_const16_length (fun x hx => by rw [List.eq_of_mem_replicate hx]; rfl),
      List.length_replicate, slice_length hlen hf]
  omega

lemma generalPack_spec_length {verts : List MD3FrameVertex} {V F ppf : ℕ}
    (hlen : verts.length = V * F) (hppf : V ≤ ppf) :
    ((List.range F).flatMap (fun f =>
      ((verts.drop (f * V)).take V).flatMap pixelBytes ++
      (List.replicate (ppf - V) zeroPixelBytes).flatten)).length = F * (ppf * 16) := by
  rw [flatMap_const_length
      (fun f hf => block_length hlen hppf (List.mem_range.mp hf)),
      List.length_range]

lemma singlePack_spec {verts : List MD3FrameVertex} {ppf : ℕ}
    (h : verts.length ≤ ppf) :
    singlePack verts ppf = some (verts.flatMap pixelBytes ++
      (List.replicate (ppf - verts.length) zeroPixelBytes).flatten) := by
  rw [singlePack_eq h, List.flatten_append, ← List.flatMap_def]

/-- On the exactly representable range the packer succeeds and produces exactly
the per-frame layout: each frame's vertex slice as pixels followed by
frame-local zero padding up to `pixels_per_frame = W * ceil(V/W)` pixels. -/
lemma make_animation_eq_spec (s : MD3Surface) (W : ℕ)
    (hV1 : 1 ≤ s.num_verts) (hV24 : s.num_verts ≤ 2 ^ 24) (hF : 1 ≤ s.num_frames)
    (hlen : s.vertices.length = s.num_verts * s.num_frames) (hW : 1 ≤ W) :
    make_animation s (some W) = some
      ⟨s.num_verts % 2 ^ 32, s.num_frames % 2 ^ 32,
       ((s.num_verts + W - 1) / W) % 2 ^ 32,
       (List.range s.num_frames).flatMap (fun f =>
         ((s.vertices.drop (f * s.num_verts)).take s.num_verts).flatMap pixelBytes ++
         (List.replicate (W * ((s.num_verts + W - 1) / W) - s.num_verts)
           zeroPixelBytes).flatten)⟩ := by
  have hrows : rows32 s.num_verts W = (s.num_verts + W - 1) / W :=
    rows32_exact hV1 hV24 hW
  have hppf : s.num_verts ≤ W * ((s.num_verts + W - 1) / W) :=
    le_mul_ceil_div s.num_verts W hW
  simp only [make_animation, Option.getD_some]
  rw [hrows]
  by_cases hfr : 1 < s.num_frames
  · rw [if_pos hfr, generalPack_spec hlen hppf, Option.some_bind,
        if_pos (by rw [generalPack_spec_length hlen hppf]; ring)]
  · rw [if_neg hfr]
    have hF1 : s.num_frames = 1 := by omega
    have hvl : s.vertices.length = s.num_verts := by rw [hlen, hF1, Nat.mul_one]
    rw [singlePack_spec (by rw [hvl]; exact hppf), Option.some_bind]
    rw [if_pos (by
      rw [List.length_append,
          flatMap_const_length (fun v _ => pixelBytes_length v),
          flatten_const16_length (fun x hx => by rw [List.eq_of_mem_replicate hx]; rfl),
          List.length_replicate, hvl, hF1]
      have hc : W * (1 * ((s.num_verts + W - 1) / W)) * (4 * 4) =
          W * ((s.num_verts + W - 1) / W) * 16 := by ring
      omega)]
    rw [hF1]
    have hdata : s.vertices.flatMap pixelBytes ++
        (List.replicate (W * ((s.num_verts + W - 1) / W) - s.vertices.length)
          zeroPixelBytes).flatten =
        (List.range 1).flatMap (fun f =>
          ((s.vertices.drop (f * s.num_verts)).take s.num_verts).flatMap pixelBytes ++
          (List.replicate (W * ((s.num_verts + W - 1) / W) - s.num_verts)
            zeroPixelBytes).flatten) := by
      rw [show List.range 1 = [0] from rfl]
      simp only [List.flatMap_cons, List.flatMap_nil, List.append_nil, Nat.zero_mul,
        List.drop_zero]
      rw [← hvl, List.take_length]
    rw [hdata]

lemma rows32_zero_left (W : ℕ) : rows32 0 W = 0 := by
  unfold rows32
  have h0 : r32 ((0 : ℕ) : ℚ) = 0 := by
    unfold r32
    norm_num
  rw [h0, zero_div, show r32 0 = 0 from by unfold r32; norm_num]
  norm_num

lemma make_animation_single_none {s : MD3Surface} {W : ℕ}
    (hfr : ¬ 1 < s.num_frames)
    (h : ¬ s.vertices.length ≤ W * rows32 s.num_verts W) :
    make_animation s (some W) = none := by
  simp only [make_animation, Option.getD_some]
  rw [if_neg hfr]
  unfold singlePack
  rw [if_neg h]
  rfl

lemma make_animation_single_some {s : MD3Surface} {W : ℕ}
    (hfr : ¬ 1 < s.num_frames)
    (hle : s.vertices.length ≤ W * rows32 s.num_verts W)
    (hck : W * rows32 s.num_verts W * 16 =
      W * (s.num_frames * rows32 s.num_verts W) * (4 * 4)) :
    make_animation s (some W) = some
      ⟨s.num_verts % 2 ^ 32, s.num_frames % 2 ^ 32, rows32 s.num_verts W % 2 ^ 32,
       ((s.vertices.map pixelBytes) ++
         List.replicate (W * rows32 s.num_verts W - s.vertices.length)
           zeroPixelBytes).flatten⟩ := by
  simp only [make_animation, Option.getD_some]
  rw [if_neg hfr, singlePack_eq hle, Option.some_bind,
      if_pos (by rw [singlePack_data_length hle]; exact hck)]

lemma make_animation_single_none' (s : MD3Surface) (W V R : ℕ)
    (hfr : ¬ 1 < s.num_frames) (hV : s.num_verts = V) (hR : rows32 V W = R)
    (h : ¬ s.vertices.length ≤ W * R) :
    make_animation s (some W) = none := by
  subst hV
  subst hR
  exact make_animation_single_none hfr h

lemma make_animation_single_some' (s : MD3Surface) (W V R : ℕ)
    (hfr : ¬ 1 < s.num_frames) (hV : s.num_verts = V) (hR : rows32 V W = R)
    (hle : s.vertices.length ≤ W * R)
    (hck : W * R * 16 = W * (s.num_frames * R) * (4 * 4)) :
    make_animation s (some W) = some
      ⟨V % 2 ^ 32, s.num_frames % 2 ^ 32, R % 2 ^ 32,
       ((s.vertices.map pixelBytes) ++
         List.replicate (W * R - s.vertices.length) zeroPixelBytes).flatten⟩ := by
  subst hV
  subst hR
  exact make_animation_single_some hfr hle hck

/-- C1 (amended: vertex counts up to `2^24`, the range where the `f32` row
computation is exact): for a surface with `1 ≤ V ≤ 2^24`, `F ≥ 1` and a vertex
list of length `V*F`, and any width `W ≥ 1`, `make_animation` produces a pixel
sequence of `F` frame blocks in ascending frame order; block `f` holds, in
original vertex order, the 4-channel sign-extended `i32` pixels `[x,y,z,n]` of
slice `[f*V, f*V+V)`, followed by `pixelsPerFrame - V` zero pixels `[0,0,0,0]`
(frame-local padding), each channel as native-endian (little-endian) `i32`
bytes. -/
theorem make_animation_layout (s : MD3Surface) (W : ℕ)
    (hV1 : 1 ≤ s.num_verts) (hV24 : s.num_verts ≤ 2 ^ 24) (hF : 1 ≤ s.num_frames)
    (hlen : s.vertices.length = s.num_verts * s.num_frames) (hW : 1 ≤ W) :
    ∃ a : Animation, make_animation s (some W) = some a ∧
      a.data = (List.range s.num_frames).flatMap (fun f =>
        ((s.vertices.drop (f * s.num_verts)).take s.num_verts).flatMap
          (fun v => v.to_pixel.flatMap i32ToBytes) ++
        (List.replicate (W * ((s.num_verts + W - 1) / W) - s.num_verts)
          (([0, 0, 0, 0] : List ℤ).flatMap i32ToBytes)).flatten) :=
  ⟨_, make_animation_eq_spec s W hV1 hV24 hF hlen hW, rfl⟩

/-- C1 counterexample: at `V = 2^24 + 1` (one frame, width 1) the claim as
stated over all `V ≥ 1` fails: the `f32` row count rounds down to `2^24`,
`pixels_per_frame < V`, the packer's `usize` subtraction underflows (a panic),
and no pixel sequence is produced at all. -/
theorem make_animation_layout_cx :
    make_animation ⟨[], 16777217, 1, [], [], [],
      List.replicate 16777217 ⟨0, 0, 0, 0⟩⟩ (some 1) = none := by
  apply make_animation_single_none' _ 1 16777217 16777216
  · show ¬ (1 : ℕ) < 1
    norm_num
  · rfl
  · exact rows32_16777217_1
  · show ¬ (List.replicate 16777217 (⟨0, 0, 0, 0⟩ : MD3FrameVertex)).length ≤
      1 * 16777216
    rw [List.length_replicate]
    norm_num

/-- C2 (amended: vertex counts up to `2^24`): `W = V` when the width argument
is `None`; for any `W ≥ 1` the returned grid has
`rows_per_frame = ceil(V/W)` and a data buffer of exactly
`W * H * 4 * 4` bytes with `H = rows_per_frame * F`. -/
theorem make_animation_grid_dims (s : MD3Surface) (W : ℕ)
    (hV1 : 1 ≤ s.num_verts) (hV24 : s.num_verts ≤ 2 ^ 24) (hF : 1 ≤ s.num_frames)
    (hlen : s.vertices.length = s.num_verts * s.num_frames) (hW : 1 ≤ W) :
    make_animation s none = make_animation s (some s.num_verts) ∧
    ∃ a : Animation, make_animation s (some W) = some a ∧
      a.rows_per_frame = (s.num_verts + W - 1) / W ∧
      a.data.length = W * (((s.num_verts + W - 1) / W) * s.num_frames) * (4 * 4) := by
  refine ⟨rfl, _, make_animation_eq_spec s W hV1 hV24 hF hlen hW, ?_, ?_⟩
  · have hlt : (s.num_verts + W - 1) / W < 2 ^ 32 := by
      have h1 := ceil_div_le_self s.num_verts W hW
      have h2 : (2 : ℕ) ^ 24 < 2 ^ 32 := by norm_num
      omega
    exact Nat.mod_eq_of_lt hlt
  · have hppf : s.num_verts ≤ W * ((s.num_verts + W - 1) / W) :=
      le_mul_ceil_div s.num_verts W hW
    have hl := generalPack_spec_length hlen hppf
    simp only [] at hl ⊢
    rw [hl]
    ring

/-- C2 counterexample: at `V = 2^24 + 3` (one frame, width 1) the returned
grid's `rows_per_frame` is `2^24 + 4` — the `f32` division rounds the quotient
up to the next even significand — while the exact ceiling `ceil(V/1)` is
`V = 2^24 + 3`; the buffer length likewise exceeds the claimed
`W * ceil(V/W) * F * 16`. -/
theorem make_animation_grid_dims_cx :
    (make_animation ⟨[], 16777219, 1, [], [], [],
       List.replicate 16777219 ⟨0, 0, 0, 0⟩⟩ (some 1)).map Animation.rows_per_frame
      = some 16777220 ∧ (16777219 + 1 - 1) / 1 = 16777219 := by
  constructor
  · rw [make_animation_single_some' _ 1 16777219 16777220
      (by norm_num : ¬ (1 : ℕ) < 1) rfl rows32_16777219_1
      (by show (List.replicate 16777219 (⟨0, 0, 0, 0⟩ : MD3FrameVertex)).length ≤
            1 * 16777220
          rw [List.length_replicate]
          norm_num)
      (by show 1 * 16777220 * 16 = 1 * (1 * 16777220) * (4 * 4)
          norm_num)]
    rw [Option.map_some']
    show some ((16777220 : ℕ) % 2 ^ 32) = some 16777220
    norm_num
  · norm_num

/-- C7 (amended: vertex counts up to `2^24`): on a one-frame surface the
single-frame branch of `make_animation` (flat vertex list plus
`pixelsPerFrame - V` appended zero pixels) and the general per-frame branch
specialized to `F = 1` produce byte-identical output, for every width
`W ≥ 1` and `pixelsPerFrame = W * rows` as the code computes it. -/
theorem single_general_agree (verts : List MD3FrameVertex) (W : ℕ)
    (h24 : verts.length ≤ 2 ^ 24) (hW : 1 ≤ W) :
    singlePack verts (W * rows32 verts.length W) =
      generalPack verts verts.length 1 (W * rows32 verts.length W) := by
  rcases Nat.eq_zero_or_pos verts.length with h0 | h1
  · have hv : verts = [] := List.length_eq_zero.mp h0
    subst hv
    simp [singlePack, generalPack, rows32_zero_left]
  · have hrows := rows32_exact h1 h24 hW
    have hppf := le_mul_ceil_div verts.length W hW
    rw [hrows]
    rw [singlePack_spec (le_trans (Nat.le_refl _) hppf),
        generalPack_spec (Nat.mul_one verts.length).symm hppf]
    congr 1
    rw [show List.range 1 = [0] from rfl]
    simp only [List.flatMap_cons, List.flatMap_nil, List.append_nil, Nat.zero_mul,
      List.drop_zero, List.take_length]

/-- C7 counterexample: at `V = 2^24 + 1`, `W = 1` (one frame) the two
formulations disagree: `pixels_per_frame` rounds down to `2^24 < V`, the
single-frame branch panics on the `usize` subtraction (`none`), while the
general branch, specialized to one frame, silently truncates and still
produces bytes. -/
theorem single_general_agree_cx :
    singlePack (List.replicate 16777217 ⟨0, 0, 0, 0⟩) (1 * rows32 16777217 1) = none ∧
    generalPack (List.replicate 16777217 ⟨0, 0, 0, 0⟩) 16777217 1
      (1 * rows32 16777217 1) ≠ none := by
  rw [rows32_16777217_1]
  constructor
  · unfold singlePack
    rw [if_neg (by rw [List.length_replicate]; norm_num)]
  · unfold generalPack
    rw [if_pos (by rw [List.length_replicate])]
    exact Option.some_ne_none _

/-! ## Width negotiation properties -/

lemma loopWidths_length (k : ℕ) : ∀ w, (loopWidths w k).length = k + 1 := by
  induction k with
  | zero => intro w; rfl
  | succ j ih =>
    intro w
    simp only [loopWidths, List.length_cons, ih]

lemma loopWidths_getLast (k : ℕ) (hk : 1 ≤ k) :
    ∀ w, (loopWidths w k).getLast? = some 2 := by
  induction k with
  | zero => omega
  | succ j ih =>
    intro w
    rcases Nat.eq_zero_or_pos j with hj | hj
    · subst hj
      rfl
    · obtain ⟨m, rfl⟩ : ∃ m, j = m + 1 := ⟨j - 1, by omega⟩
      show (w :: loopWidths (2 ^ (m + 1 + 1)) (m + 1)).getLast? = some 2
      rw [show loopWidths (2 ^ (m + 1 + 1)) (m + 1) =
          2 ^ (m + 1 + 1) :: loopWidths (2 ^ (m + 1)) m from rfl]
      rw [List.getLast?_cons_cons]
      exact ih (by omega) (2 ^ (m + 1 + 1))

lemma findTwoPower_eq {width i0 : ℕ} (h1 : 1 ≤ i0) (h2 : 2 ^ i0 < width)
    (h3 : width ≤ 2 ^ (i0 + 1)) : ∀ j, i0 ≤ j → findTwoPower width j = i0 := by
  intro j
  induction j with
  | zero => omega
  | succ k ih =>
    intro hle
    rcases Nat.lt_or_ge i0 (k + 1) with hlt | hge
    · have hcond : ¬ 2 ^ (k + 1) < width := by
        have : 2 ^ (i0 + 1) ≤ 2 ^ (k + 1) := Nat.pow_le_pow_right (by norm_num) (by omega)
        omega
      show (if 2 ^ (k + 1) < width then k + 1 else findTwoPower width k) = i0
      rw [if_neg hcond]
      exact ih (by omega)
    · have heq : i0 = k + 1 := by omega
      show (if 2 ^ (k + 1) < width then k + 1 else findTwoPower width k) = i0
      rw [if_pos (by rw [← heq]; exact h2), heq]

lemma findTwoPower_zero {width : ℕ} (h : width ≤ 2) :
    ∀ j, findTwoPower width j = 0 := by
  intro j
  induction j with
  | zero => rfl
  | succ k ih =>
    show (if 2 ^ (k + 1) < width then k + 1 else findTwoPower width k) = 0
    rw [if_neg (by
      have : 2 ≤ 2 ^ (k + 1) := Nat.le_self_pow (by omega) 2
      omega)]
    exact ih

lemma clog_eq_log_pred_succ {V : ℕ} (hV : 2 ≤ V) :
    Nat.clog 2 V = Nat.log 2 (V - 1) + 1 := by
  have hne : V - 1 ≠ 0 := by omega
  have hub : Nat.clog 2 V ≤ Nat.log 2 (V - 1) + 1 := by
    rw [← Nat.le_pow_iff_clog_le (by norm_num)]
    have := Nat.lt_pow_succ_log_self (b := 2) (by norm_num) (V - 1)
    omega
  have hlb : Nat.log 2 (V - 1) < Nat.clog 2 V := by
    rw [← Nat.pow_lt_iff_lt_clog (by norm_num)]
    have := Nat.pow_log_le_self 2 hne
    omega
  omega

lemma initTwoPower_eq {V maxpot : ℕ} (hV : 2 ≤ V) (hcap : V ≤ 2 ^ (maxpot - 1)) :
    initTwoPower maxpot V = Nat.log 2 (V - 1) := by
  rcases Nat.lt_or_ge V 3 with h2 | h3
  · have hV2 : V = 2 := by omega
    subst hV2
    unfold initTwoPower
    rw [findTwoPower_zero (by omega)]
    rw [show (2 : ℕ) - 1 = 1 from rfl, Nat.log_one_right]
  · have h1 : 1 ≤ Nat.log 2 (V - 1) := by
      have := (Nat.pow_le_iff_le_log (b := 2) (by norm_num) (by omega : V - 1 ≠ 0)).mp
        (by omega : 2 ^ 1 ≤ V - 1)
      omega
    have h2 : 2 ^ Nat.log 2 (V - 1) < V := by
      have := Nat.pow_log_le_self 2 (by omega : V - 1 ≠ 0)
      omega
    have h3' : V ≤ 2 ^ (Nat.log 2 (V - 1) + 1) := by
      have := Nat.lt_pow_succ_log_self (b := 2) (by norm_num) (V - 1)
      omega
    have hj : Nat.log 2 (V - 1) ≤ maxpot - 1 := by
      have := (Nat.lt_pow_iff_log_lt (b := 2) (by norm_num) (by omega : V - 1 ≠ 0)).mp
        (by omega : V - 1 < 2 ^ (maxpot - 1))
      omega
    exact findTwoPower_eq h1 h2 h3' (maxpot - 1) hj

/-- C8 (amended): starting from `W = V ≥ 2` (with the hardware cap not
binding, `V ≤ 2^(maxpot-1)`), the upload loop terminates after exactly
`ceil(log2 V)` attempted widths; the last width attempted is `2` — the loop
abandons the operation when the next width would be `1 = 2^0`, so `W` never
reaches `1` or `0`. -/
theorem negotiation_terminates (V maxpot : ℕ) (hV : 2 ≤ V)
    (hcap : V ≤ 2 ^ (maxpot - 1)) :
    (attemptedWidths V maxpot).length = Nat.clog 2 V ∧
    (attemptedWidths V maxpot).getLast? = some 2 := by
  unfold attemptedWidths
  rw [initTwoPower_eq hV hcap, loopWidths_length, clog_eq_log_pred_succ hV]
  refine ⟨rfl, ?_⟩
  rcases Nat.lt_or_ge V 3 with h2 | h3
  · have hV2 : V = 2 := by omega
    subst hV2
    rw [show (2 : ℕ) - 1 = 1 from rfl, Nat.log_one_right]
    rfl
  · apply loopWidths_getLast
    have := (Nat.pow_le_iff_le_log (b := 2) (by norm_num) (by omega : V - 1 ≠ 0)).mp
      (by omega : 2 ^ 1 ≤ V - 1)
    omega

/-- C8 counterexample: for `V = 4` (cap `31`) the attempted widths are
`[4, 2]`: the loop never reaches width `1` — it abandons as soon as the next
width would be `1`, not `0`. -/
theorem negotiation_cx :
    attemptedWidths 4 31 = [4, 2] ∧ ¬ (1 ∈ attemptedWidths 4 31) := by decide

/-! ## Symbolic execution of the decoder -/

lemma except_bind_ok {ε α β : Type} {x : Except ε α} {f : α → Except ε β} {b : β} :
    (x >>= f = Except.ok b) ↔ ∃ a, x = Except.ok a ∧ f a = Except.ok b := by
  cases x with
  | error e => simp [Bind.bind, Except.bind]
  | ok a => simp [Bind.bind, Except.bind]

lemma readBytes_ok {n : ℕ} {st : Stream} {r : List ℕ × Stream} :
    readBytes n st = .ok r ↔
      st.pos + n ≤ st.data.length ∧
      r = ((st.data.drop st.pos).take n, ⟨st.data, st.pos + n⟩) := by
  unfold readBytes
  split
  next hc =>
    constructor
    · intro he
      exact ⟨hc, (Except.ok.inj he).symm⟩
    · rintro ⟨-, rfl⟩
      rfl
  next hc =>
    constructor
    · intro he
      exact Except.noConfusion he
    · rintro ⟨hle, -⟩
      exact absurd hle hc

lemma read_shader_ok {st : Stream} {v : MD3Shader} {st' : Stream}
    (h : read_shader st = .ok (v, st')) :
    st'.data = st.data ∧ st'.pos = st.pos + 68 := by
  simp only [read_shader, except_bind_ok] at h
  obtain ⟨⟨x1, s1⟩, h1, h⟩ := h
  rw [readBytes_ok] at h1
  obtain ⟨hle1, he1⟩ := h1
  injection he1 with hx1 hs1
  subst hs1
  simp only [except_bind_ok] at h
  obtain ⟨⟨x2, s2⟩, h2, h⟩ := h
  rw [readBytes_ok] at h2
  obtain ⟨hle2, he2⟩ := h2
  injection he2 with hx2 hs2
  subst hs2
  rw [Except.ok.injEq] at h
  injection h with hv hst
  subst hst
  refine ⟨rfl, ?_⟩
  show st.pos + 64 + 4 = st.pos + 68
  omega

lemma read_frame_ok {st : Stream} {v : MD3Frame} {st' : Stream}
    (h : read_frame st = .ok (v, st')) :
    st'.data = st.data ∧ st'.pos = st.pos + 56 := by
  simp only [read_frame, except_bind_ok] at h
  obtain ⟨⟨x1, s1⟩, h1, h⟩ := h
  rw [readBytes_ok] at h1
  obtain ⟨hle1, he1⟩ := h1
  injection he1 with hx1 hs1
  subst hs1
  simp only [except_bind_ok] at h
  obtain ⟨⟨x2, s2⟩, h2, h⟩ := h
  rw [readBytes_ok] at h2
  obtain ⟨hle2, he2⟩ := h2
  injection he2 with hx2 hs2
  subst hs2
  simp only [except_bind_ok] at h
  obtain ⟨⟨x3, s3⟩, h3, h⟩ := h
  rw [readBytes_ok] at h3
  obtain ⟨hle3, he3⟩ := h3
  injection he3 with hx3 hs3
  subst hs3
  simp only [except_bind_ok] at h
  obtain ⟨⟨x4, s4⟩, h4, h⟩ := h
  rw [readBytes_ok] at h4
  obtain ⟨hle4, he4⟩ := h4
  injection he4 with hx4 hs4
  subst hs4
  simp only [except_bind_ok] at h
  obtain ⟨⟨x5, s5⟩, h5, h⟩ := h
  rw [readBytes_ok] at h5
  obtain ⟨hle5, he5⟩ := h5
  injection he5 with hx5 hs5
  subst hs5
  simp only [except_bind_ok] at h
  obtain ⟨⟨x6, s6⟩, h6, h⟩ := h
  rw [readBytes_ok] at h6
  obtain ⟨hle6, he6⟩ := h6
  injection he6 with hx6 hs6
  subst hs6
  simp only [except_bind_ok] at h
  obtain ⟨⟨x7, s7⟩, h7, h⟩ := h
  rw [readBytes_ok] at h7
  obtain ⟨hle7, he7⟩ := h7
  injection he7 with hx7 hs7
  subst hs7
  simp only [except_bind_ok] at h
  obtain ⟨⟨x8, s8⟩, h8, h⟩ := h
  rw [readBytes_ok] at h8
  obtain ⟨hle8, he8⟩ := h8
  injection he8 with hx8 hs8
  subst hs8
  simp only [except_bind_ok] at h
  obtain ⟨⟨x9, s9⟩, h9, h⟩ := h
  rw [readBytes_ok] at h9
  obtain ⟨hle9, he9⟩ := h9
  injection he9 with hx9 hs9
  subst hs9
  simp only [except_bind_ok] at h
  obtain ⟨⟨x10, s10⟩, h10, h⟩ := h
  rw [readBytes_ok] at h10
  obtain ⟨hle10, he10⟩ := h10
  injection he10 with hx10 hs10
  subst hs10
  simp only [except_bind_ok] at h
  obtain ⟨⟨x11, s11⟩, h11, h⟩ := h
  rw [readBytes_ok] at h11
  obtain ⟨hle11, he11⟩ := h11
  injection he11 with hx11 hs11
  subst hs11
  rw [Except.ok.injEq] at h
  injection h with hv hst
  subst hst
  refine ⟨rfl, ?_⟩
  show st.pos + 4 + 4 + 4 + 4 + 4 + 4 + 4 + 4 + 4 + 4 + 16 = st.pos + 56
  omega

lemma read_tag_ok {st : Stream} {v : MD3FrameTag} {st' : Stream}
    (h : read_tag st = .ok (v, st')) :
    st'.data = st.data ∧ st'.pos = st.pos + 112 := by
  simp only [read_tag, except_bind_ok] at h
  obtain ⟨⟨x1, s1⟩, h1, h⟩ := h
  rw [readBytes_ok] at h1
  obtain ⟨hle1, he1⟩ := h1
  injection he1 with hx1 hs1
  subst hs1
  simp only [except_bind_ok] at h
  obtain ⟨⟨x2, s2⟩, h2, h⟩ := h
  rw [readBytes_ok] at h2
  obtain ⟨hle2, he2⟩ := h2
  injection he2 with hx2 hs2
  subst hs2
  simp only [except_bind_ok] at h
  obtain ⟨⟨x3, s3⟩, h3, h⟩ := h
  rw [readBytes_ok] at h3
  obtain ⟨hle3, he3⟩ := h3
  injection he3 with hx3 hs3
  subst hs3
  simp only [except_bind_ok] at h
  obtain ⟨⟨x4, s4⟩, h4, h⟩ := h
  rw [readBytes_ok] at h4
  obtain ⟨hle4, he4⟩ := h4
  injection he4 with hx4 hs4
  subst hs4
  simp only [except_bind_ok] at h
  obtain ⟨⟨x5, s5⟩, h5, h⟩ := h
  rw [readBytes_ok] at h5
  obtain ⟨hle5, he5⟩ := h5
  injection he5 with hx5 hs5
  subst hs5
  simp only [except_bind_ok] at h
  obtain ⟨⟨x6, s6⟩, h6, h⟩ := h
  rw [readBytes_ok] at h6
  obtain ⟨hle6, he6⟩ := h6
  injection he6 with hx6 hs6
  subst hs6
  simp only [except_bind_ok] at h
  obtain ⟨⟨x7, s7⟩, h7, h⟩ := h
  rw [readBytes_ok] at h7
  obtain ⟨hle7, he7⟩ := h7
  injection he7 with hx7 hs7
  subst hs7
  simp only [except_bind_ok] at h
  obtain ⟨⟨x8, s8⟩, h8, h⟩ := h
  rw [readBytes_ok] at h8
  obtain ⟨hle8, he8⟩ := h8
  injection he8 with hx8 hs8
  subst hs8
  simp only [except_bind_ok] at h
  obtain ⟨⟨x9, s9⟩, h9, h⟩ := h
  rw [readBytes_ok] at h9
  obtain ⟨hle9, he9⟩ := h9
  injection he9 with hx9 hs9
  subst hs9
  simp only [except_bind_ok] at h
  obtain ⟨⟨x10, s10⟩, h10, h⟩ := h
  rw [readBytes_ok] at h10
  obtain ⟨hle10, he10⟩ := h10
  injection he10 with hx10 hs10
  subst hs10
  simp only [except_bind_ok] at h
  obtain ⟨⟨x11, s11⟩, h11, h⟩ := h
  rw [readBytes_ok] at h11
  obtain ⟨hle11, he11⟩ := h11
  injection he11 with hx11 hs11
  subst hs11
  simp only [except_bind_ok] at h
  obtain ⟨⟨x12, s12⟩, h12, h⟩ := h
  rw [readBytes_ok] at h12
  obtain ⟨hle12, he12⟩ := h12
  injection he12 with hx12 hs12
  subst hs12
  simp only [except_bind_ok] at h
  obtain ⟨⟨x13, s13⟩, h13, h⟩ := h
  rw [readBytes_ok] at h13
  obtain ⟨hle13, he13⟩ := h13
  injection he13 with hx13 hs13
  subst hs13
  rw [Except.ok.injEq] at h
  injection h with hv hst
  subst hst
  refine ⟨rfl, ?_⟩
  show st.pos + 64 + 4 + 4 + 4 + 4 + 4 + 4 + 4 + 4 + 4 + 4 + 4 + 4 = st.pos + 112
  omega

lemma read_texcoord_ok {st : Stream} {v : MD3TexCoord} {st' : Stream}
    (h : read_texcoord st = .ok (v, st')) :
    st'.data = st.data ∧ st'.pos = st.pos + 8 := by
  simp only [read_texcoord, except_bind_ok] at h
  obtain ⟨⟨x1, s1⟩, h1, h⟩ := h
  rw [readBytes_ok] at h1
  obtain ⟨hle1, he1⟩ := h1
  injection he1 with hx1 hs1
  subst hs1
  simp only [except_bind_ok] at h
  obtain ⟨⟨x2, s2⟩, h2, h⟩ := h
  rw [readBytes_ok] at h2
  obtain ⟨hle2, he2⟩ := h2
  injection he2 with hx2 hs2
  subst hs2
  rw [Except.ok.injEq] at h
  injection h with hv hst
  subst hst
  refine ⟨rfl, ?_⟩
  show st.pos + 4 + 4 = st.pos + 8
  omega

lemma read_vertex_ok {st : Stream} {v : MD3FrameVertex} {st' : Stream}
    (h : read_vertex st = .ok (v, st')) :
    st'.data = st.data ∧ st'.pos = st.pos + 8 := by
  simp only [read_vertex, except_bind_ok] at h
  obtain ⟨⟨x1, s1⟩, h1, h⟩ := h
  rw [readBytes_ok] at h1
  obtain ⟨hle1, he1⟩ := h1
  injection he1 with hx1 hs1
  subst hs1
  simp only [except_bind_ok] at h
  obtain ⟨⟨x2, s2⟩, h2, h⟩ := h
  rw [readBytes_ok] at h2
  obtain ⟨hle2, he2⟩ := h2
  injection he2 with hx2 hs2
  subst hs2
  simp only [except_bind_ok] at h
  obtain ⟨⟨x3, s3⟩, h3, h⟩ := h
  rw [readBytes_ok] at h3
  obtain ⟨hle3, he3⟩ := h3
  injection he3 with hx3 hs3
  subst hs3
  simp only [except_bind_ok] at h
  obtain ⟨⟨x4, s4⟩, h4, h⟩ := h
  rw [readBytes_ok] at h4
  obtain ⟨hle4, he4⟩ := h4
  injection he4 with hx4 hs4
  subst hs4
  rw [Except.ok.injEq] at h
  injection h with hv hst
  subst hst
  refine ⟨rfl, ?_⟩
  show st.pos + 2 + 2 + 2 + 2 = st.pos + 8
  omega

lemma read_triangle_ok {st : Stream} {v : MD3Triangle} {st' : Stream}
    (h : read_triangle st = .ok (v, st')) :
    st'.data = st.data ∧ st'.pos = st.pos + 12 ∧
    v = ⟨[leU32At st.data (st.pos + 8), leU32At st.data (st.pos + 4),
          leU32At st.data st.pos]⟩ := by
  simp only [read_triangle, except_bind_ok] at h
  obtain ⟨⟨x1, s1⟩, h1, h⟩ := h
  rw [readBytes_ok] at h1
  obtain ⟨hle1, he1⟩ := h1
  injection he1 with hx1 hs1
  subst hs1
  simp only [except_bind_ok] at h
  obtain ⟨⟨x2, s2⟩, h2, h⟩ := h
  rw [readBytes_ok] at h2
  obtain ⟨hle2, he2⟩ := h2
  injection he2 with hx2 hs2
  subst hs2
  simp only [except_bind_ok] at h
  obtain ⟨⟨x3, s3⟩, h3, h⟩ := h
  rw [readBytes_ok] at h3
  obtain ⟨hle3, he3⟩ := h3
  injection he3 with hx3 hs3
  subst hs3
  rw [Except.ok.injEq] at h
  injection h with hv hst
  subst hst
  refine ⟨rfl, ?_, ?_⟩
  · show st.pos + 4 + 4 + 4 = st.pos + 12
    omega
  · subst hv
    subst hx1
    subst hx2
    subst hx3
    show MD3Triangle.mk [leU32 ((st.data.drop (st.pos + 4 + 4)).take 4),
      leU32 ((st.data.drop (st.pos + 4)).take 4),
      leU32 ((st.data.drop st.pos).take 4)] = _
    rw [show st.pos + 4 + 4 = st.pos + 8 from by omega]
    rfl

lemma readN_length {α : Type} {f : Stream → Except MD3ReadError (α × Stream)} :
    ∀ n st vs st', readN f n st = .ok (vs, st') → vs.length = n := by
  intro n
  induction n with
  | zero =>
    intro st vs st' h
    simp only [readN] at h
    rw [Except.ok.injEq] at h
    injection h with h1 h2
    rw [← h1]
    rfl
  | succ n ih =>
    intro st vs st' h
    simp only [readN, except_bind_ok] at h
    obtain ⟨⟨v, s1⟩, h1, h⟩ := h
    simp only [except_bind_ok] at h
    obtain ⟨⟨vs', s2⟩, h2, h⟩ := h
    rw [Except.ok.injEq] at h
    injection h with hv hst
    rw [← hv, List.length_cons, ih s1 vs' s2 h2]

lemma readN_mem {α : Type} {f : Stream → Except MD3ReadError (α × Stream)}
    (hf : ∀ st v st', f st = .ok (v, st') → st'.data = st.data) :
    ∀ n st vs st', readN f n st = .ok (vs, st') →
      ∀ v ∈ vs, ∃ s1 s2, f s1 = .ok (v, s2) ∧ s1.data = st.data := by
  intro n
  induction n with
  | zero =>
    intro st vs st' h
    simp only [readN] at h
    rw [Except.ok.injEq] at h
    injection h with h1 h2
    rw [← h1]
    intro v hv
    exact absurd hv (List.not_mem_nil v)
  | succ n ih =>
    intro st vs st' h
    simp only [readN, except_bind_ok] at h
    obtain ⟨⟨v, s1⟩, h1, h⟩ := h
    simp only [except_bind_ok] at h
    obtain ⟨⟨vs', s2⟩, h2, h⟩ := h
    rw [Except.ok.injEq] at h
    injection h with hv hst
    rw [← hv]
    intro w hw
    rcases List.mem_cons.mp hw with hhead | htail
    · subst hhead
      exact ⟨st, s1, h1, rfl⟩
    · obtain ⟨t1, t2, ht, hd⟩ := ih s1 vs' s2 h2 w htail
      exact ⟨t1, t2, ht, by rw [hd, hf st v s1 h1]⟩

lemma readN_data {α : Type} {f : Stream → Except MD3ReadError (α × Stream)}
    (hf : ∀ st v st', f st = .ok (v, st') → st'.data = st.data) :
    ∀ n st vs st', readN f n st = .ok (vs, st') → st'.data = st.data := by
  intro n
  induction n with
  | zero =>
    intro st vs st' h
    simp only [readN] at h
    rw [Except.ok.injEq] at h
    injection h with h1 h2
    rw [← h2]
  | succ n ih =>
    intro st vs st' h
    simp only [readN, except_bind_ok] at h
    obtain ⟨⟨v, s1⟩, h1, h⟩ := h
    simp only [except_bind_ok] at h
    obtain ⟨⟨vs', s2⟩, h2, h⟩ := h
    rw [Except.ok.injEq] at h
    injection h with hv hst
    rw [← hst]  -- hst : s2 = st'
    rw [ih s1 vs' s2 h2, hf st v s1 h1]

lemma readN_fixed {α : Type} {f : Stream → Except MD3ReadError (α × Stream)}
    {k : ℕ} {g : List ℕ → ℕ → α}
    (hf : ∀ st v st', f st = .ok (v, st') →
      st'.data = st.data ∧ st'.pos = st.pos + k ∧ v = g st.data st.pos) :
    ∀ n st vs st', readN f n st = .ok (vs, st') →
      st'.data = st.data ∧ st'.pos = st.pos + k * n ∧
      vs = (List.range n).map (fun i => g st.data (st.pos + k * i)) := by
  intro n
  induction n with
  | zero =>
    intro st vs st' h
    simp only [readN] at h
    rw [Except.ok.injEq] at h
    injection h with h1 h2
    rw [← h1, ← h2]
    refine ⟨rfl, by omega, rfl⟩
  | succ n ih =>
    intro st vs st' h
    simp only [readN, except_bind_ok] at h
    obtain ⟨⟨v, s1⟩, h1, h⟩ := h
    simp only [except_bind_ok] at h
    obtain ⟨⟨vs', s2⟩, h2, h⟩ := h
    rw [Except.ok.injEq] at h
    injection h with hv hst
    obtain ⟨hd1, hp1, hg1⟩ := hf st v s1 h1
    obtain ⟨hd2, hp2, hmap⟩ := ih s1 vs' s2 h2
    subst hst
    refine ⟨by rw [hd2, hd1], by rw [hp2, hp1]; ring, ?_⟩
    have htail : List.map (fun i => g s1.data (s1.pos + k * i)) (List.range n) =
        List.map ((fun i => g st.data (st.pos + k * i)) ∘ Nat.succ) (List.range n) := by
      apply List.map_congr_left
      intro i hi
      show g s1.data (s1.pos + k * i) = g st.data (st.pos + k * (i + 1))
      rw [hd1, hp1]
      congr 1
      ring
    rw [← hv]
    show v :: vs' = _
    rw [hg1, hmap, List.range_succ_eq_map, List.map_cons, List.map_map, ← htail]
    rfl

lemma read_surface_core_ok {st0 : Stream} {surf : MD3Surface} {st2 : Stream}
    {oend : ℕ} (h : read_surface_core st0 = .ok (surf, st2, oend)) :
    st2.data = st0.data ∧
    surf.num_frames = leU32At st0.data (st0.pos + 72) ∧
    surf.num_verts = leU32At st0.data (st0.pos + 80) ∧
    surf.shaders.length = leU32At st0.data (st0.pos + 76) ∧
    surf.triangles.length = leU32At st0.data (st0.pos + 84) ∧
    surf.texcoords.length = surf.num_verts ∧
    surf.vertices.length = surf.num_verts * surf.num_frames ∧
    oend = st0.pos + leU32At st0.data (st0.pos + 104) ∧
    surf.triangles = (List.range (leU32At st0.data (st0.pos + 84))).map (fun i =>
      ⟨[leU32At st0.data (st0.pos + leU32At st0.data (st0.pos + 88) + 12 * i + 8),
        leU32At st0.data (st0.pos + leU32At st0.data (st0.pos + 88) + 12 * i + 4),
        leU32At st0.data (st0.pos + leU32At st0.data (st0.pos + 88) + 12 * i)]⟩) := by
  simp only [read_surface_core, except_bind_ok] at h
  obtain ⟨⟨x1, s1⟩, h1, h⟩ := h
  rw [readBytes_ok] at h1
  obtain ⟨hle1, he1⟩ := h1
  injection he1 with hx1 hs1
  subst hs1
  split at h
  · exact Except.noConfusion h
  simp only [except_bind_ok, seekCur, seekStart] at h
  obtain ⟨⟨x2, s2⟩, h2, h⟩ := h
  rw [readBytes_ok] at h2
  obtain ⟨hle2, he2⟩ := h2
  injection he2 with hx2 hs2
  subst hs2
  simp only [except_bind_ok, seekCur, seekStart] at h
  obtain ⟨⟨x3, s3⟩, h3, h⟩ := h
  rw [readBytes_ok] at h3
  obtain ⟨hle3, he3⟩ := h3
  injection he3 with hx3 hs3
  subst hs3
  simp only [except_bind_ok, seekCur, seekStart] at h
  obtain ⟨⟨x4, s4⟩, h4, h⟩ := h
  rw [readBytes_ok] at h4
  obtain ⟨hle4, he4⟩ := h4
  injection he4 with hx4 hs4
  subst hs4
  simp only [except_bind_ok, seekCur, seekStart] at h
  obtain ⟨⟨x5, s5⟩, h5, h⟩ := h
  rw [readBytes_ok] at h5
  obtain ⟨hle5, he5⟩ := h5
  injection he5 with hx5 hs5
  subst hs5
  simp only [except_bind_ok, seekCur, seekStart] at h
  obtain ⟨⟨x6, s6⟩, h6, h⟩ := h
  rw [readBytes_ok] at h6
  obtain ⟨hle6, he6⟩ := h6
  injection he6 with hx6 hs6
  subst hs6
  simp only [except_bind_ok, seekCur, seekStart] at h
  obtain ⟨⟨x7, s7⟩, h7, h⟩ := h
  rw [readBytes_ok] at h7
  obtain ⟨hle7, he7⟩ := h7
  injection he7 with hx7 hs7
  subst hs7
  simp only [except_bind_ok, seekCur, seekStart] at h
  obtain ⟨⟨x8, s8⟩, h8, h⟩ := h
  rw [readBytes_ok] at h8
  obtain ⟨hle8, he8⟩ := h8
  injection he8 with hx8 hs8
  subst hs8
  simp only [except_bind_ok, seekCur, seekStart] at h
  obtain ⟨⟨x9, s9⟩, h9, h⟩ := h
  rw [readBytes_ok] at h9
  obtain ⟨hle9, he9⟩ := h9
  injection he9 with hx9 hs9
  subst hs9
  simp only [except_bind_ok, seekCur, seekStart] at h
  obtain ⟨⟨x10, s10⟩, h10, h⟩ := h
  rw [readBytes_ok] at h10
  obtain ⟨hle10, he10⟩ := h10
  injection he10 with hx10 hs10
  subst hs10
  simp only [except_bind_ok, seekCur, seekStart] at h
  obtain ⟨⟨x11, s11⟩, h11, h⟩ := h
  rw [readBytes_ok] at h11
  obtain ⟨hle11, he11⟩ := h11
  injection he11 with hx11 hs11
  subst hs11
  simp only [except_bind_ok, seekCur, seekStart] at h
  obtain ⟨⟨shaders, ssh⟩, hsh, h⟩ := h
  simp only [except_bind_ok, seekCur, seekStart] at h
  obtain ⟨⟨triangles, str⟩, htr, h⟩ := h
  simp only [except_bind_ok, seekCur, seekStart] at h
  obtain ⟨⟨texcoords, suv⟩, huv, h⟩ := h
  simp only [except_bind_ok, seekCur, seekStart] at h
  obtain ⟨⟨vertices, sve⟩, hve, h⟩ := h
  rw [Except.ok.injEq] at h
  injection h with hsurf hrest
  injection hrest with hst2 hoend
  subst hst2
  subst hoend
  -- data preservation through the four record groups
  have hshd := readN_data (fun a b c hh => (read_shader_ok hh).1) _ _ _ _ hsh
  have htrd := readN_data (fun a b c hh => (read_triangle_ok hh).1) _ _ _ _ htr
  have huvd := readN_data (fun a b c hh => (read_texcoord_ok hh).1) _ _ _ _ huv
  have hved := readN_data (fun a b c hh => (read_vertex_ok hh).1) _ _ _ _ hve
  have hshl := readN_length _ _ _ _ hsh
  have huvl := readN_length _ _ _ _ huv
  have hvel := readN_length _ _ _ _ hve
  have htrsp := readN_fixed (k := 12)
    (g := fun d p => (⟨[leU32At d (p + 8), leU32At d (p + 4), leU32At d p]⟩ : MD3Triangle))
    (fun a b c hh => read_triangle_ok hh) _ _ _ _ htr
  obtain ⟨htrd2, htrp2, htrmap⟩ := htrsp
  subst hsurf
  refine ⟨?_, ?_, ?_, ?_, ?_, ?_, ?_, ?_, ?_⟩
  · exact hved.trans (huvd.trans (htrd2.trans hshd))
  · show leU32 x3 = _
    rw [hx3]
    show leU32 ((st0.data.drop (st0.pos + 4 + 64 + 4)).take 4) = _
    rw [show st0.pos + 4 + 64 + 4 = st0.pos + 72 from by omega]
    rfl
  · show leU32 x5 = _
    rw [hx5]
    show leU32 ((st0.data.drop (st0.pos + 4 + 64 + 4 + 4 + 4)).take 4) = _
    rw [show st0.pos + 4 + 64 + 4 + 4 + 4 = st0.pos + 80 from by omega]
    rfl
  · show shaders.length = _
    rw [hshl, hx4]
    show leU32 ((st0.data.drop (st0.pos + 4 + 64 + 4 + 4)).take 4) = _
    rw [show st0.pos + 4 + 64 + 4 + 4 = st0.pos + 76 from by omega]
    rfl
  · show triangles.length = _
    rw [readN_length _ _ _ _ htr, hx6]
    show leU32 ((st0.data.drop (st0.pos + 4 + 64 + 4 + 4 + 4 + 4)).take 4) = _
    rw [show st0.pos + 4 + 64 + 4 + 4 + 4 + 4 = st0.pos + 84 from by omega]
    rfl
  · show texcoords.length = leU32 x5
    rw [huvl]
  · show vertices.length = leU32 x5 * leU32 x3
    rw [hvel]
  · show st0.pos + leU32 x11 = _
    rw [hx11]
    show st0.pos + leU32 ((st0.data.drop (st0.pos + 4 + 64 + 4 + 4 + 4 + 4 + 4 + 4 + 4 + 4 + 4)).take 4) = _
    rw [show st0.pos + 4 + 64 + 4 + 4 + 4 + 4 + 4 + 4 + 4 + 4 + 4 = st0.pos + 104 from by omega]
    rfl
  · have h6 : leU32 x6 = leU32At st0.data (st0.pos + 84) := by
      rw [hx6]
      show leU32 ((st0.data.drop (st0.pos + 4 + 64 + 4 + 4 + 4 + 4)).take 4) = _
      rw [show st0.pos + 4 + 64 + 4 + 4 + 4 + 4 = st0.pos + 84 from by omega]
      rfl
    have h7 : leU32 x7 = leU32At st0.data (st0.pos + 88) := by
      rw [hx7]
      show leU32 ((st0.data.drop (st0.pos + 4 + 64 + 4 + 4 + 4 + 4 + 4)).take 4) = _
      rw [show st0.pos + 4 + 64 + 4 + 4 + 4 + 4 + 4 = st0.pos + 88 from by omega]
      rfl
    have hd : ssh.data = st0.data := hshd
    have htrmap2 : triangles = (List.range (leU32 x6)).map (fun i =>
        (⟨[leU32At ssh.data (st0.pos + leU32 x7 + 12 * i + 8),
           leU32At ssh.data (st0.pos + leU32 x7 + 12 * i + 4),
           leU32At ssh.data (st0.pos + leU32 x7 + 12 * i)]⟩ : MD3Triangle)) := htrmap
    show triangles = _
    rw [htrmap2, h6, h7, hd]

lemma ok_bind {α β : Type} (a : α) (f : α → Except MD3ReadError β) :
    ((Except.ok a : Except MD3ReadError α) >>= f) = f a := rfl

lemma err_bind {α β : Type} (e : MD3ReadError) (f : α → Except MD3ReadError β) :
    ((Except.error e : Except MD3ReadError α) >>= f) = .error e := rfl

lemma readBytes_err {n : ℕ} {st : Stream} (h : st.data.length < st.pos + n) :
    readBytes n st = .error .EOF := by
  unfold readBytes
  rw [if_neg (by omega)]

lemma read_surface_of_core {st0 : Stream} {surf : MD3Surface} {st : Stream}
    {oend : ℕ} (h : read_surface_core st0 = .ok (surf, st, oend)) :
    read_surface st0 =
      if oend < st.pos then .error (.AfterEnd st.pos) else .ok (surf, st) := by
  unfold read_surface
  rw [h, ok_bind]

lemma read_surface_ok_elim {st0 : Stream} {surf : MD3Surface} {st : Stream}
    (h : read_surface st0 = .ok (surf, st)) :
    ∃ oend, read_surface_core st0 = .ok (surf, st, oend) ∧ st.pos ≤ oend := by
  simp only [read_surface, except_bind_ok] at h
  obtain ⟨⟨surf1, st1, oend⟩, h1, h⟩ := h
  split at h
  · exact Except.noConfusion h
  next hc =>
    rw [Except.ok.injEq] at h
    injection h with h2 h3
    subst h2
    subst h3
    have hc2 : ¬ (oend < st1.pos) := hc
    exact ⟨oend, h1, not_lt.mp hc2⟩

lemma read_surface_data {st0 : Stream} {surf : MD3Surface} {st : Stream}
    (h : read_surface st0 = .ok (surf, st)) : st.data = st0.data := by
  obtain ⟨oend, hc, hle⟩ := read_surface_ok_elim h
  exact (read_surface_core_ok hc).1

lemma read_md3_of_core {bytes : List ℕ} {model : MD3Model} {pos oend : ℕ}
    (h : read_md3_core bytes = .ok (model, pos, oend)) :
    read_md3 bytes =
      if oend < pos then .error (.AfterEnd pos) else .ok model := by
  unfold read_md3
  rw [h, ok_bind]

lemma read_md3_ok_elim {bytes : List ℕ} {model : MD3Model}
    (h : read_md3 bytes = .ok model) :
    ∃ pos oend, read_md3_core bytes = .ok (model, pos, oend) ∧ pos ≤ oend := by
  simp only [read_md3, except_bind_ok] at h
  obtain ⟨⟨model1, pos, oend⟩, h1, h⟩ := h
  split at h
  · exact Except.noConfusion h
  next hc =>
    rw [Except.ok.injEq] at h
    subst h
    have hc2 : ¬ (oend < pos) := hc
    exact ⟨pos, oend, h1, not_lt.mp hc2⟩

lemma read_md3_core_err {bytes : List ℕ} {e : MD3ReadError}
    (h : read_md3_core bytes = .error e) : read_md3 bytes = .error e := by
  unfold read_md3
  rw [h, err_bind]

lemma read_md3_core_ok {bytes : List ℕ} {model : MD3Model} {pos oend : ℕ}
    (h : read_md3_core bytes = .ok (model, pos, oend)) :
    model.frames.length = leU32At bytes 76 ∧
    model.num_tags = leU32At bytes 80 ∧
    model.tags.length = (leU32At bytes 80 * leU32At bytes 76) % 2 ^ 32 ∧
    model.surfaces.length = leU32At bytes 84 ∧
    oend = leU32At bytes 104 ∧
    (∀ surf ∈ model.surfaces,
      ∃ s1 s2, read_surface s1 = .ok (surf, s2) ∧ s1.data = bytes) := by
  simp only [read_md3_core, except_bind_ok] at h
  obtain ⟨⟨x1, s1⟩, h1, h⟩ := h
  rw [readBytes_ok] at h1
  obtain ⟨hle1, he1⟩ := h1
  injection he1 with hx1 hs1
  subst hs1
  split at h
  · exact Except.noConfusion h
  simp only [except_bind_ok, seekCur, seekStart] at h
  obtain ⟨⟨x2, s2⟩, h2, h⟩ := h
  rw [readBytes_ok] at h2
  obtain ⟨hle2, he2⟩ := h2
  injection he2 with hx2 hs2
  subst hs2
  split at h
  · exact Except.noConfusion h
  simp only [except_bind_ok, seekCur, seekStart] at h
  obtain ⟨⟨x3, s3⟩, h3, h⟩ := h
  rw [readBytes_ok] at h3
  obtain ⟨hle3, he3⟩ := h3
  injection he3 with hx3 hs3
  subst hs3
  simp only [except_bind_ok, seekCur, seekStart] at h
  obtain ⟨⟨x4, s4⟩, h4, h⟩ := h
  rw [readBytes_ok] at h4
  obtain ⟨hle4, he4⟩ := h4
  injection he4 with hx4 hs4
  subst hs4
  simp only [except_bind_ok, seekCur, seekStart] at h
  obtain ⟨⟨x5, s5⟩, h5, h⟩ := h
  rw [readBytes_ok] at h5
  obtain ⟨hle5, he5⟩ := h5
  injection he5 with hx5 hs5
  subst hs5
  simp only [except_bind_ok, seekCur, seekStart] at h
  obtain ⟨⟨x6, s6⟩, h6, h⟩ := h
  rw [readBytes_ok] at h6
  obtain ⟨hle6, he6⟩ := h6
  injection he6 with hx6 hs6
  subst hs6
  simp only [except_bind_ok, seekCur, seekStart] at h
  obtain ⟨⟨x7, s7⟩, h7, h⟩ := h
  rw [readBytes_ok] at h7
  obtain ⟨hle7, he7⟩ := h7
  injection he7 with hx7 hs7
  subst hs7
  simp only [except_bind_ok, seekCur, seekStart] at h
  obtain ⟨⟨x8, s8⟩, h8, h⟩ := h
  rw [readBytes_ok] at h8
  obtain ⟨hle8, he8⟩ := h8
  injection he8 with hx8 hs8
  subst hs8
  simp only [except_bind_ok, seekCur, seekStart] at h
  obtain ⟨⟨x9, s9⟩, h9, h⟩ := h
  rw [readBytes_ok] at h9
  obtain ⟨hle9, he9⟩ := h9
  injection he9 with hx9 hs9
  subst hs9
  simp only [except_bind_ok, seekCur, seekStart] at h
  obtain ⟨⟨x10, s10⟩, h10, h⟩ := h
  rw [readBytes_ok] at h10
  obtain ⟨hle10, he10⟩ := h10
  injection he10 with hx10 hs10
  subst hs10
  simp only [except_bind_ok, seekCur, seekStart] at h
  obtain ⟨⟨frames, sfr⟩, hfr, h⟩ := h
  simp only [except_bind_ok, seekCur, seekStart] at h
  obtain ⟨⟨tags, stg⟩, htg, h⟩ := h
  simp only [except_bind_ok, seekCur, seekStart] at h
  obtain ⟨⟨surfaces, ssf⟩, hsf, h⟩ := h
  rw [Except.ok.injEq] at h
  injection h with hmod hrest
  injection hrest with hpos hoend
  subst hmod
  subst hoend
  have hfrd := readN_data (fun a b c hh => (read_frame_ok hh).1) _ _ _ _ hfr
  have htgd := readN_data (fun a b c hh => (read_tag_ok hh).1) _ _ _ _ htg
  refine ⟨?_, ?_, ?_, ?_, ?_, ?_⟩
  · show frames.length = _
    rw [readN_length _ _ _ _ hfr, hx4]
    rfl
  · show leU32 x5 = _
    rw [hx5]
    rfl
  · show tags.length = _
    rw [readN_length _ _ _ _ htg, hx5, hx4]
    rfl
  · show surfaces.length = _
    rw [readN_length _ _ _ _ hsf, hx6]
    rfl
  · show leU32 x10 = _
    rw [hx10]
    rfl
  · intro surf hm
    obtain ⟨t1, t2, ha, hb⟩ :=
      readN_mem (fun a b c hh => read_surface_data hh) _ _ _ _ hsf surf hm
    exact ⟨t1, t2, ha, hb.trans (htgd.trans hfrd)⟩

lemma read_md3_wrongid {bytes : List ℕ} (h4 : 4 ≤ bytes.length)
    (hne : bytes.take 4 ≠ MD3_ID) :
    read_md3 bytes = .error (.WrongId (bytes.take 4)) := by
  apply read_md3_core_err
  have e0 : readBytes 4 (⟨bytes, 0⟩ : Stream) =
      .ok (bytes.take 4, (⟨bytes, 4⟩ : Stream)) := by
    rw [readBytes_ok]
    refine ⟨?_, rfl⟩
    show 0 + 4 ≤ bytes.length
    omega
  simp only [read_md3_core, e0, ok_bind]
  rw [if_pos hne]

lemma read_md3_badversion {bytes : List ℕ} (h8 : 8 ≤ bytes.length)
    (hid : bytes.take 4 = MD3_ID)
    (hne : leI32 ((bytes.drop 4).take 4) ≠ MD3_VERSION) :
    read_md3 bytes = .error (.UnsupportedVersion (leI32 ((bytes.drop 4).take 4))) := by
  apply read_md3_core_err
  have e0 : readBytes 4 (⟨bytes, 0⟩ : Stream) =
      .ok (bytes.take 4, (⟨bytes, 4⟩ : Stream)) := by
    rw [readBytes_ok]
    refine ⟨?_, rfl⟩
    show 0 + 4 ≤ bytes.length
    omega
  have e1 : readBytes 4 (⟨bytes, 4⟩ : Stream) =
      .ok ((bytes.drop 4).take 4, (⟨bytes, 8⟩ : Stream)) := by
    rw [readBytes_ok]
    refine ⟨?_, rfl⟩
    show 4 + 4 ≤ bytes.length
    omega
  simp only [read_md3_core, e0, e1, ok_bind]
  rw [if_neg (not_not_intro hid), if_pos hne]

lemma read_md3_truncated {bytes : List ℕ} (hlen : bytes.length < 108)
    (hid : bytes.take 4 = MD3_ID)
    (hver : 8 ≤ bytes.length → leI32 ((bytes.drop 4).take 4) = MD3_VERSION) :
    read_md3 bytes = .error .EOF := by
  apply read_md3_core_err
  rcases lt_or_le bytes.length 4 with c0 | c0
  · have f0 : readBytes 4 (⟨bytes, 0⟩ : Stream) = .error .EOF := by
      apply readBytes_err
      show bytes.length < 0 + 4
      omega
    simp only [read_md3_core, ok_bind, seekCur, f0, err_bind, Nat.reduceAdd]
  have e0 : readBytes 4 (⟨bytes, 0⟩ : Stream) =
      .ok (bytes.take 4, (⟨bytes, 4⟩ : Stream)) := by
    rw [readBytes_ok]
    refine ⟨?_, rfl⟩
    show 0 + 4 ≤ bytes.length
    omega
  rcases lt_or_le bytes.length 8 with c1 | c1
  · have f1 : readBytes 4 (⟨bytes, 4⟩ : Stream) = .error .EOF := by
      apply readBytes_err
      show bytes.length < 4 + 4
      omega
    simp only [read_md3_core, e0, ok_bind, seekCur, f1, err_bind, Nat.reduceAdd]
    rw [if_neg (not_not_intro hid)]
  have e1 : readBytes 4 (⟨bytes, 4⟩ : Stream) =
      .ok ((bytes.drop 4).take 4, (⟨bytes, 8⟩ : Stream)) := by
    rw [readBytes_ok]
    refine ⟨?_, rfl⟩
    show 4 + 4 ≤ bytes.length
    omega
  have hv := hver c1
  rcases lt_or_le bytes.length 72 with c2 | c2
  · have f2 : readBytes 64 (⟨bytes, 8⟩ : Stream) = .error .EOF := by
      apply readBytes_err
      show bytes.length < 8 + 64
      omega
    simp only [read_md3_core, e0, e1, ok_bind, seekCur, f2, err_bind, Nat.reduceAdd]
    rw [if_neg (not_not_intro hid), if_neg (not_not_intro hv)]
  have e2 : readBytes 64 (⟨bytes, 8⟩ : Stream) =
      .ok ((bytes.drop 8).take 64, (⟨bytes, 72⟩ : Stream)) := by
    rw [readBytes_ok]
    refine ⟨?_, rfl⟩
    show 8 + 64 ≤ bytes.length
    omega
  rcases lt_or_le bytes.length 80 with c3 | c3
  · have f3 : readBytes 4 (⟨bytes, 76⟩ : Stream) = .error .EOF := by
      apply readBytes_err
      show bytes.length < 76 + 4
      omega
    simp only [read_md3_core, e0, e1, e2, ok_bind, seekCur, f3, err_bind, Nat.reduceAdd]
    rw [if_neg (not_not_intro hid), if_neg (not_not_intro hv)]
  have e3 : readBytes 4 (⟨bytes, 76⟩ : Stream) =
      .ok ((bytes.drop 76).take 4, (⟨bytes, 80⟩ : Stream)) := by
    rw [readBytes_ok]
    refine ⟨?_, rfl⟩
    show 76 + 4 ≤ bytes.length
    omega
  rcases lt_or_le bytes.length 84 with c4 | c4
  · have f4 : readBytes 4 (⟨bytes, 80⟩ : Stream) = .error .EOF := by
      apply readBytes_err
      show bytes.length < 80 + 4
      omega
    simp only [read_md3_core, e0, e1, e2, e3, ok_bind, seekCur, f4, err_bind, Nat.reduceAdd]
    rw [if_neg (not_not_intro hid), if_neg (not_not_intro hv)]
  have e4 : readBytes 4 (⟨bytes, 80⟩ : Stream) =
      .ok ((bytes.drop 80).take 4, (⟨bytes, 84⟩ : Stream)) := by
    rw [readBytes_ok]
    refine ⟨?_, rfl⟩
    show 80 + 4 ≤ bytes.length
    omega
  rcases lt_or_le bytes.length 88 with c5 | c5
  · have f5 : readBytes 4 (⟨bytes, 84⟩ : Stream) = .error .EOF := by
      apply readBytes_err
      show bytes.length < 84 + 4
      omega
    simp only [read_md3_core, e0, e1, e2, e3, e4, ok_bind, seekCur, f5, err_bind, Nat.reduceAdd]
    rw [if_neg (not_not_intro hid), if_neg (not_not_intro hv)]
  have e5 : readBytes 4 (⟨bytes, 84⟩ : Stream) =
      .ok ((bytes.drop 84).take 4, (⟨bytes, 88⟩ : Stream)) := by
    rw [readBytes_ok]
    refine ⟨?_, rfl⟩
    show 84 + 4 ≤ bytes.length
    omega
  rcases lt_or_le bytes.length 96 with c6 | c6
  · have f6 : readBytes 4 (⟨bytes, 92⟩ : Stream) = .error .EOF := by
      apply readBytes_err
      show bytes.length < 92 + 4
      omega
    simp only [read_md3_core, e0, e1, e2, e3, e4, e5, ok_bind, seekCur, f6, err_bind, Nat.reduceAdd]
    rw [if_neg (not_not_intro hid), if_neg (not_not_intro hv)]
  have e6 : readBytes 4 (⟨bytes, 92⟩ : Stream) =
      .ok ((bytes.drop 92).take 4, (⟨bytes, 96⟩ : Stream)) := by
    rw [readBytes_ok]
    refine ⟨?_, rfl⟩
    show 92 + 4 ≤ bytes.length
    omega
  rcases lt_or_le bytes.length 100 with c7 | c7
  · have f7 : readBytes 4 (⟨bytes, 96⟩ : Stream) = .error .EOF := by
      apply readBytes_err
      show bytes.length < 96 + 4
      omega
    simp only [read_md3_core, e0, e1, e2, e3, e4, e5, e6, ok_bind, seekCur, f7, err_bind, Nat.reduceAdd]
    rw [if_neg (not_not_intro hid), if_neg (not_not_intro hv)]
  have e7 : readBytes 4 (⟨bytes, 96⟩ : Stream) =
      .ok ((bytes.drop 96).take 4, (⟨bytes, 100⟩ : Stream)) := by
    rw [readBytes_ok]
    refine ⟨?_, rfl⟩
    show 96 + 4 ≤ bytes.length
    omega
  rcases lt_or_le bytes.length 104 with c8 | c8
  · have f8 : readBytes 4 (⟨bytes, 100⟩ : Stream) = .error .EOF := by
      apply readBytes_err
      show bytes.length < 100 + 4
      omega
    simp only [read_md3_core, e0, e1, e2, e3, e4, e5, e6, e7, ok_bind, seekCur, f8, err_bind, Nat.reduceAdd]
    rw [if_neg (not_not_intro hid), if_neg (not_not_intro hv)]
  have e8 : readBytes 4 (⟨bytes, 100⟩ : Stream) =
      .ok ((bytes.drop 100).take 4, (⟨bytes, 104⟩ : Stream)) := by
    rw [readBytes_ok]
    refine ⟨?_, rfl⟩
    show 100 + 4 ≤ bytes.length
    omega
  have f9 : readBytes 4 (⟨bytes, 104⟩ : Stream) = .error .EOF := by
    apply readBytes_err
    show bytes.length < 104 + 4
    omega
  simp only [read_md3_core, e0, e1, e2, e3, e4, e5, e6, e7, e8, ok_bind, seekCur, f9, err_bind, Nat.reduceAdd]
  rw [if_neg (not_not_intro hid), if_neg (not_not_intro hv)]

/-- C3: a triangle stored in the source bytes as three little-endian `u32`
indices `(a, b, c)` decodes to `(c, b, a)` — first and third swapped, middle
unchanged — both at the single-record level (`read_triangle`) and for every
triangle of every surface the decoder accepts: triangle `i` of an accepted
surface is the swap of the record at `base + triangleOffset + 12*i`. -/
theorem triangle_swap :
    (∀ (st : Stream) (tri : MD3Triangle) (st' : Stream) (a b c : ℕ),
      read_triangle st = .ok (tri, st') →
      leU32At st.data st.pos = a →
      leU32At st.data (st.pos + 4) = b →
      leU32At st.data (st.pos + 8) = c →
      tri.idx = [c, b, a]) ∧
    (∀ (st0 : Stream) (surf : MD3Surface) (st2 : Stream) (oend : ℕ),
      read_surface_core st0 = .ok (surf, st2, oend) →
      ∀ i, i < surf.triangles.length →
        surf.triangles[i]? = some
          ⟨[leU32At st0.data (st0.pos + leU32At st0.data (st0.pos + 88) + 12 * i + 8),
            leU32At st0.data (st0.pos + leU32At st0.data (st0.pos + 88) + 12 * i + 4),
            leU32At st0.data (st0.pos + leU32At st0.data (st0.pos + 88) + 12 * i)]⟩) := by
  constructor
  · intro st tri st' a b c h ha hb hc
    rw [(read_triangle_ok h).2.2, ha, hb, hc]
  · intro st0 surf st2 oend h i hi
    have hmap := (read_surface_core_ok h).2.2.2.2.2.2.2.2
    have hlen := (read_surface_core_ok h).2.2.2.2.1
    rw [hmap, List.getElem?_map, List.getElem?_range
      (by omega : i < leU32At st0.data (st0.pos + 84))]
    rfl

/-- C3 witness: the record `(1, 2, 3)` decodes to `(3, 2, 1)`, both through
`read_triangle` directly and through a whole surface block. -/
theorem triangle_swap_witness :
    (⟨[3, 2, 1]⟩ : MD3Triangle).idx = [3, 2, 1] ∧
    triSurf.triangles[0]? = some ⟨[3, 2, 1]⟩ :=
  ⟨triangle_swap.1 ⟨[1, 0, 0, 0, 2, 0, 0, 0, 3, 0, 0, 0], 0⟩ ⟨[3, 2, 1]⟩
      ⟨[1, 0, 0, 0, 2, 0, 0, 0, 3, 0, 0, 0], 12⟩ 1 2 3 rfl rfl rfl rfl,
   triangle_swap.2 ⟨triSurfBytes, 0⟩ triSurf ⟨triSurfBytes, 120⟩ 120 rfl 0 (by decide)⟩

/-- C4: every accepted byte stream yields a model reproducing the header's
declared counts — `frames.length` is the count at offset 76, `tags.length` the
tag count at 80 times the frame count reduced modulo `2^32` (the code's
`u32 * u32` multiply wraps, so the full product is reproduced exactly when it
is below `2^32`), `surfaces.length` the count at 84 — and
every decoded surface reproduces its own block's declared counts: shaders,
triangles, texcoords (= vertex count) and vertices (= vertex count × frame
count). -/
theorem decode_counts {bytes : List ℕ} {model : MD3Model}
    (h : read_md3 bytes = .ok model) :
    model.frames.length = leU32At bytes 76 ∧
    model.tags.length = (leU32At bytes 80 * leU32At bytes 76) % 2 ^ 32 ∧
    model.surfaces.length = leU32At bytes 84 ∧
    ∀ surf ∈ model.surfaces, ∃ st0 st2 : Stream, st0.data = bytes ∧
      read_surface st0 = .ok (surf, st2) ∧
      surf.num_frames = leU32At bytes (st0.pos + 72) ∧
      surf.num_verts = leU32At bytes (st0.pos + 80) ∧
      surf.shaders.length = leU32At bytes (st0.pos + 76) ∧
      surf.triangles.length = leU32At bytes (st0.pos + 84) ∧
      surf.texcoords.length = surf.num_verts ∧
      surf.vertices.length = surf.num_verts * surf.num_frames := by
  obtain ⟨pos, oend, hc, hle⟩ := read_md3_ok_elim h
  obtain ⟨h1, h2, h3, h4, h5, h6⟩ := read_md3_core_ok hc
  refine ⟨h1, h3, h4, ?_⟩
  intro surf hm
  obtain ⟨s1, s2, ha, hb⟩ := h6 surf hm
  obtain ⟨oend2, hcs, hles⟩ := read_surface_ok_elim ha
  obtain ⟨k1, k2, k3, k4, k5, k6, k7, k8, k9⟩ := read_surface_core_ok hcs
  rw [hb] at k2 k3 k4 k5
  exact ⟨s1, s2, hb, ha, k2, k3, k4, k5, k6, k7⟩

/-- C4 witness: the minimal valid file with all counts zero. -/
theorem decode_counts_witness :
    minModel.frames.length = leU32At minBytes 76 ∧
    minModel.tags.length = (leU32At minBytes 80 * leU32At minBytes 76) % 2 ^ 32 ∧
    minModel.surfaces.length = leU32At minBytes 84 ∧
    (∀ surf ∈ minModel.surfaces, ∃ st0 st2 : Stream, st0.data = minBytes ∧
      read_surface st0 = .ok (surf, st2) ∧
      surf.num_frames = leU32At minBytes (st0.pos + 72) ∧
      surf.num_verts = leU32At minBytes (st0.pos + 80) ∧
      surf.shaders.length = leU32At minBytes (st0.pos + 76) ∧
      surf.triangles.length = leU32At minBytes (st0.pos + 84) ∧
      surf.texcoords.length = surf.num_verts ∧
      surf.vertices.length = surf.num_verts * surf.num_frames) :=
  decode_counts (by rfl)

set_option maxRecDepth 8000 in
/-- C4 counterexample: the original claim — `tags.len()` equals the declared
tag count times frame count over plain integers — fails on `wrapBytes`: the
stream declares `2^31` tags and `2` frames, the code's `u32` multiply wraps
`2^31 * 2` to `0`, the decoder reads zero tag records and still accepts the
file, so `tags.len() = 0` while the declared product is `2^33 ≠ 0`. -/
theorem decode_counts_cx :
    (read_md3 wrapBytes).map (fun m => m.tags.length) = .ok 0 ∧
    leU32At wrapBytes 80 * leU32At wrapBytes 76 ≠ 0 := by
  refine ⟨by rfl, by decide⟩

/-- C5: `read_md3` rejects malformed headers with the specified errors: a
first-4-byte mismatch yields `WrongId` carrying the actual bytes; a matching
magic with a version other than 15 yields `UnsupportedVersion` carrying the
actual value; and a stream shorter than the 108-byte header (whose surviving
magic/version bytes are valid) yields `EOF` — in all three cases an error, so
no model is returned. -/
theorem header_rejection (bytes : List ℕ) :
    (4 ≤ bytes.length → bytes.take 4 ≠ MD3_ID →
      read_md3 bytes = .error (.WrongId (bytes.take 4))) ∧
    (8 ≤ bytes.length → bytes.take 4 = MD3_ID →
      leI32 ((bytes.drop 4).take 4) ≠ MD3_VERSION →
      read_md3 bytes = .error (.UnsupportedVersion (leI32 ((bytes.drop 4).take 4)))) ∧
    (bytes.length < 108 → bytes.take 4 = MD3_ID →
      (8 ≤ bytes.length → leI32 ((bytes.drop 4).take 4) = MD3_VERSION) →
      read_md3 bytes = .error .EOF) :=
  ⟨fun h4 hne => read_md3_wrongid h4 hne,
   fun h8 hid hne => read_md3_badversion h8 hid hne,
   fun hlen hid hver => read_md3_truncated hlen hid hver⟩

/-- C5 witness: a wrong magic, a wrong version, and a truncated valid header
each produce the specified error. -/
theorem header_rejection_witness :
    read_md3 [0, 0, 0, 0] = .error (.WrongId [0, 0, 0, 0]) ∧
    read_md3 [73, 68, 80, 51, 14, 0, 0, 0] = .error (.UnsupportedVersion 14) ∧
    read_md3 [73, 68, 80, 51, 15, 0, 0, 0] = .error .EOF :=
  ⟨(header_rejection [0, 0, 0, 0]).1 (by decide) (by decide),
   (header_rejection [73, 68, 80, 51, 14, 0, 0, 0]).2.1 (by decide) (by decide)
     (by decide),
   (header_rejection [73, 68, 80, 51, 15, 0, 0, 0]).2.2 (by decide) (by decide)
     (fun h => by decide)⟩

/-- C6: after the body of `read_md3` (resp. of a surface block) succeeds, the
final check fails with `AfterEnd` carrying the current position exactly when
that position strictly exceeds the declared end offset; a position at or below
the end offset (trailing unread bytes) is tolerated and the result is
returned. -/
theorem end_check :
    (∀ (bytes : List ℕ) (model : MD3Model) (pos oend : ℕ),
      read_md3_core bytes = .ok (model, pos, oend) →
      (oend < pos → read_md3 bytes = .error (.AfterEnd pos)) ∧
      (pos ≤ oend → read_md3 bytes = .ok model)) ∧
    (∀ (st0 : Stream) (surf : MD3Surface) (st : Stream) (oend : ℕ),
      read_surface_core st0 = .ok (surf, st, oend) →
      (oend < st.pos → read_surface st0 = .error (.AfterEnd st.pos)) ∧
      (st.pos ≤ oend → read_surface st0 = .ok (surf, st))) := by
  constructor
  · intro bytes model pos oend h
    constructor
    · intro hlt
      rw [read_md3_of_core h, if_pos hlt]
    · intro hge
      rw [read_md3_of_core h, if_neg (by omega)]
  · intro st0 surf st oend h
    constructor
    · intro hlt
      rw [read_surface_of_core h, if_pos hlt]
    · intro hge
      rw [read_surface_of_core h, if_neg (by omega)]

/-- C6 witness: the minimal valid file (end offset 108 = final position) is
accepted; the same file with end offset 107 fails with `AfterEnd 108`; a
minimal surface block with matching end offset is accepted. -/
theorem end_check_witness :
    read_md3 minBytes = .ok minModel ∧
    read_md3 shortBytes = .error (.AfterEnd 108) ∧
    read_surface ⟨minSurfBytes, 0⟩ = .ok (minSurf, ⟨minSurfBytes, 108⟩) :=
  ⟨(end_check.1 minBytes minModel 108 108 rfl).2 (by decide),
   (end_check.1 shortBytes minModel 108 107 rfl).1 (by decide),
   (end_check.2 ⟨minSurfBytes, 0⟩ minSurf ⟨minSurfBytes, 108⟩ 108 rfl).2 (by decide)⟩

/-- C1 witness: a concrete 3-vertex, 2-frame surface packed at width 2. -/
theorem make_animation_layout_witness :
    ∃ a : Animation,
      make_animation ⟨[], 3, 2, [], [], [], List.replicate 6 ⟨1, 2, 3, 4⟩⟩
        (some 2) = some a ∧
      a.data = (List.range 2).flatMap (fun f =>
        (((List.replicate 6 (⟨1, 2, 3, 4⟩ : MD3FrameVertex)).drop (f * 3)).take 3).flatMap
          (fun v => v.to_pixel.flatMap i32ToBytes) ++
        (List.replicate (2 * ((3 + 2 - 1) / 2) - 3)
          (([0, 0, 0, 0] : List ℤ).flatMap i32ToBytes)).flatten) :=
  make_animation_layout ⟨[], 3, 2, [], [], [], List.replicate 6 ⟨1, 2, 3, 4⟩⟩ 2
    (by decide) (by decide) (by decide) (by decide) (by decide)

/-- C2 witness: the same 3-vertex, 2-frame surface at width 2. -/
theorem make_animation_grid_dims_witness :
    make_animation ⟨[], 3, 2, [], [], [], List.replicate 6 ⟨1, 2, 3, 4⟩⟩ none =
      make_animation ⟨[], 3, 2, [], [], [], List.replicate 6 ⟨1, 2, 3, 4⟩⟩
        (some 3) ∧
    ∃ a : Animation,
      make_animation ⟨[], 3, 2, [], [], [], List.replicate 6 ⟨1, 2, 3, 4⟩⟩
        (some 2) = some a ∧
      a.rows_per_frame = (3 + 2 - 1) / 2 ∧
      a.data.length = 2 * (((3 + 2 - 1) / 2) * 2) * (4 * 4) :=
  make_animation_grid_dims ⟨[], 3, 2, [], [], [], List.replicate 6 ⟨1, 2, 3, 4⟩⟩ 2
    (by decide) (by decide) (by decide) (by decide) (by decide)

/-- C7 witness: two vertices, one frame, width 2. -/
theorem single_general_agree_witness :
    singlePack (List.replicate 2 ⟨1, 2, 3, 4⟩) (2 * rows32 2 2) =
      generalPack (List.replicate 2 ⟨1, 2, 3, 4⟩) 2 1 (2 * rows32 2 2) :=
  single_general_agree (List.replicate 2 ⟨1, 2, 3, 4⟩) 2 (by decide) (by decide)

/-- C8 witness: starting width 8 under cap 31 gives `ceil(log2 8) = 3`
attempts ending at width 2. -/
theorem negotiation_terminates_witness :
    (attemptedWidths 8 31).length = Nat.clog 2 8 ∧
    (attemptedWidths 8 31).getLast? = some 2 :=
  negotiation_terminates 8 31 (by decide) (by decide)

/-- C9 witness: an empty 5-frame surface packs to the canonical empty grid. -/
theorem make_animation_empty_surface_witness :
    make_animation ⟨[], 0, 5, [], [], [], []⟩ none =
      some ⟨0, 5 % 2 ^ 32, 0, []⟩ :=
  make_animation_empty_surface ⟨[], 0, 5, [], [], [], []⟩ rfl rfl

/-- C10 witness: three declared vertices, zero frames, width 2: no grid. -/
theorem make_animation_zero_frames_witness :
    make_animation ⟨[], 3, 0, [], [], [], []⟩ (some 2) = none :=
  make_animation_zero_frames ⟨[], 3, 0, [], [], [], []⟩ 2 rfl (by decide) rfl
    (by decide)

end MD3View
